import Mathlib

/-!
# Verification of the beacon-chain fork-choice core

A shallow embedding, in Lean 4, of the fork-choice engine and the
attestation pipeline of the `rust_beacon_chain` repository:

* `ProtoArray` (`eth2/proto_array_fork_choice/src/proto_array.rs`),
* the `ForkChoice` orchestrator (`consensus/fork_choice/src/fork_choice.rs`),
* the gossip attestation verifier
  (`beacon_node/beacon_chain/src/attestation_verification.rs`),
* the naive aggregation pool
  (`beacon_node/beacon_chain/src/naive_aggregation_pool.rs`),
* the SSZ persistence container for fork choice, and
* the slashing-protection checks (modelled from the specification where the
  implementation crate is absent).

Machine integers are embedded as `Nat`/`Int` with explicit bounds checks
mirroring `checked_add` / `checked_sub` / saturating subtraction.  `Hash256`
values are embedded as `Nat` (the `Ord` instance of the Rust type compares
the 32 raw bytes big-endian, which coincides with numeric comparison).
Rust `HashMap`s are embedded as association lists; none of the properties
proved below depend on iteration order.  Fallible Rust functions returning
`Result` become `Except`; methods that mutate `&mut self` and may fail
return the (possibly partially mutated) state alongside the result.
-/

/-! ## Basic types -/

/-- Embedding of `Hash256::zero()`. -/
def ZERO_HASH : Nat := 0

/-- `u64::MAX`, the bound used by `checked_add` on `u64` weights. -/
def U64_MAX : Nat := 2 ^ 64 - 1

/-- Wrap an integer into the `i64` range, the semantics of release-mode
`+=` on the `i64` delta vector. -/
def i64wrap (x : Int) : Int :=
  ((x + 2 ^ 63) % 2 ^ 64) - 2 ^ 63

/-- `MainnetEthSpec::slots_per_epoch()`; the claims under verification do
not depend on its concrete value. -/
def SLOTS_PER_EPOCH : Nat := 32

/-- `Slot::epoch` — integer division by `SLOTS_PER_EPOCH`. -/
def slotToEpoch (slot : Nat) : Nat := slot / SLOTS_PER_EPOCH

/-- `Epoch::start_slot`. -/
def epochStartSlot (epoch : Nat) : Nat := epoch * SLOTS_PER_EPOCH

/-- `compute_slots_since_epoch_start` from `fork_choice.rs`. -/
def slotsSinceEpochStart (slot : Nat) : Nat :=
  slot - epochStartSlot (slotToEpoch slot)

/-! ## Association-list operations (embedding of `HashMap`) -/

/-- `HashMap::get` on the association-list embedding. -/
def assocGet (l : List (Nat × Nat)) (k : Nat) : Option Nat :=
  (l.find? (fun p => p.1 == k)).map Prod.snd

/-- `HashMap::insert`: replace the binding if present, else append. -/
def assocInsert (l : List (Nat × Nat)) (k v : Nat) : List (Nat × Nat) :=
  if l.any (fun p => p.1 == k) then
    l.map (fun p => if p.1 == k then (k, v) else p)
  else
    l ++ [(k, v)]

/-- `HashMap::remove` (the removed value is not needed by callers). -/
def assocRemove (l : List (Nat × Nat)) (k : Nat) : List (Nat × Nat) :=
  l.filter (fun p => !(p.1 == k))

/-! ## ProtoArray: data model

Embeds `ProtoNode` and `ProtoArray` from
`eth2/proto_array_fork_choice/src/proto_array.rs`. -/

/-- `ProtoNode`. -/
structure ProtoNode where
  slot : Nat
  root : Nat
  parent : Option Nat
  justifiedEpoch : Nat
  finalizedEpoch : Nat
  weight : Nat
  bestChild : Option Nat
  bestDescendant : Option Nat
deriving DecidableEq, Repr

/-- The variants of `error::Error` used by `proto_array.rs`. -/
inductive PAError where
  | invalidDeltaLen (deltas indices : Nat)
  | invalidNodeIndex (i : Nat)
  | invalidNodeDelta (i : Nat)
  | deltaOverflow (i : Nat)
  | invalidParentDelta (i : Nat)
  | justifiedNodeUnknown (root : Nat)
  | invalidJustifiedIndex (i : Nat)
  | invalidBestDescendant (i : Nat)
  | invalidBestNode (justifiedEpoch finalizedEpoch nodeJustifiedEpoch nodeFinalizedEpoch : Nat)
  | revertedFinalizedEpoch (currentFinalizedEpoch newFinalizedEpoch : Nat)
  | finalizedNodeUnknown (root : Nat)
  | indexOverflow (which : String)
deriving DecidableEq, Repr

/-- `ProtoArray`. -/
structure ProtoArray where
  pruneThreshold : Nat
  justifiedEpoch : Nat
  finalizedEpoch : Nat
  nodes : List ProtoNode
  indices : List (Nat × Nat)
deriving DecidableEq, Repr

/-- `ProtoArray::node_is_viable_for_head`. -/
def nodeIsViableForHead (self : ProtoArray) (node : ProtoNode) : Bool :=
  (node.justifiedEpoch == self.justifiedEpoch || self.justifiedEpoch == 0)
    && (node.finalizedEpoch == self.finalizedEpoch || self.finalizedEpoch == 0)

/-- `ProtoArray::node_leads_to_viable_head`. -/
def nodeLeadsToViableHead (self : ProtoArray) (node : ProtoNode) :
    Except PAError Bool :=
  match node.bestDescendant with
  | some bestDescendantIndex =>
    match self.nodes.get? bestDescendantIndex with
    | none => .error (.invalidBestDescendant bestDescendantIndex)
    | some bestDescendant =>
      .ok (nodeIsViableForHead self bestDescendant || nodeIsViableForHead self node)
  | none => .ok (false || nodeIsViableForHead self node)

/-- The four-outcome decision of
`maybe_update_best_child_and_descendant`: the `(new_best_child,
new_best_descendant)` pair chosen for the parent (`change_to_none`,
`change_to_child` or `no_change`). -/
def bestChildDecision (self : ProtoArray) (childIndex : Nat)
    (child parent : ProtoNode) (childLeadsToViableHead : Bool) :
    Except PAError (Option Nat × Option Nat) :=
  let changeToNone : Option Nat × Option Nat := (none, none)
  let changeToChild : Option Nat × Option Nat :=
    (some childIndex, (child.bestDescendant).elim (some childIndex) some)
  let noChange : Option Nat × Option Nat := (parent.bestChild, parent.bestDescendant)
  match parent.bestChild with
  | some bestChildIndex =>
    if bestChildIndex == childIndex && !childLeadsToViableHead then
      .ok changeToNone
    else if bestChildIndex == childIndex then
      .ok changeToChild
    else
      match self.nodes.get? bestChildIndex with
      | none => .error (.invalidBestDescendant bestChildIndex)
      | some bestChild =>
        match nodeLeadsToViableHead self child with
        | .error e => .error e
        | .ok childLeads =>
          match nodeLeadsToViableHead self bestChild with
          | .error e => .error e
          | .ok bestChildLeads =>
            if childLeads && !bestChildLeads then
              .ok changeToChild
            else if !childLeads && bestChildLeads then
              .ok noChange
            else if child.weight == bestChild.weight then
              (if child.root ≥ bestChild.root then .ok changeToChild else .ok noChange)
            else
              (if child.weight ≥ bestChild.weight then .ok changeToChild else .ok noChange)
  | none =>
    if childLeadsToViableHead then .ok changeToChild else .ok noChange

/-- `ProtoArray::maybe_update_best_child_and_descendant`.  Only the
`best_child` / `best_descendant` fields of the parent node are written. -/
def maybeUpdateBestChildAndDescendant (self : ProtoArray)
    (parentIndex childIndex : Nat) : Except PAError ProtoArray :=
  match self.nodes.get? childIndex with
  | none => .error (.invalidNodeIndex childIndex)
  | some child =>
    match self.nodes.get? parentIndex with
    | none => .error (.invalidNodeIndex parentIndex)
    | some parent =>
      match nodeLeadsToViableHead self child with
      | .error e => .error e
      | .ok childLeadsToViableHead =>
        match bestChildDecision self childIndex child parent childLeadsToViableHead with
        | .error e => .error e
        | .ok (newBestChild, newBestDescendant) =>
          .ok { self with
                  nodes := self.nodes.set parentIndex
                    { parent with bestChild := newBestChild,
                                  bestDescendant := newBestDescendant } }

/-- The body of the `apply_score_changes` loop for one `node_index`,
iterated below over the reversed index range.  `continue` on the zero
hash is the early `.ok` return of the skipping branch. -/
def applyScoreChangesLoop (pa : ProtoArray) (deltas : List Int) :
    List Nat → Except PAError (ProtoArray × List Int)
  | [] => .ok (pa, deltas)
  | nodeIndex :: rest =>
    match pa.nodes.get? nodeIndex with
    | none => .error (.invalidNodeIndex nodeIndex)
    | some node =>
      if node.root == ZERO_HASH then
        applyScoreChangesLoop pa deltas rest
      else
        match deltas.get? nodeIndex with
        | none => .error (.invalidNodeDelta nodeIndex)
        | some nodeDelta =>
          let weightResult : Except PAError Nat :=
            if nodeDelta < 0 then
              if nodeDelta.natAbs ≤ node.weight then
                .ok (node.weight - nodeDelta.natAbs)
              else
                .error (.deltaOverflow nodeIndex)
            else
              if node.weight + nodeDelta.toNat ≤ U64_MAX then
                .ok (node.weight + nodeDelta.toNat)
              else
                .error (.deltaOverflow nodeIndex)
          match weightResult with
          | .error e => .error e
          | .ok newWeight =>
            let pa₁ : ProtoArray :=
              { pa with nodes := pa.nodes.set nodeIndex { node with weight := newWeight } }
            match node.parent with
            | none => applyScoreChangesLoop pa₁ deltas rest
            | some parentIndex =>
              match deltas.get? parentIndex with
              | none => .error (.invalidParentDelta parentIndex)
              | some parentDelta =>
                let deltas₁ := deltas.set parentIndex (i64wrap (parentDelta + nodeDelta))
                match maybeUpdateBestChildAndDescendant pa₁ parentIndex nodeIndex with
                | .error e => .error e
                | .ok pa₂ => applyScoreChangesLoop pa₂ deltas₁ rest

/-- `ProtoArray::apply_score_changes`. -/
def applyScoreChanges (pa : ProtoArray) (deltas : List Int)
    (justifiedEpoch finalizedEpoch : Nat) : Except PAError ProtoArray :=
  if deltas.length ≠ pa.indices.length then
    .error (.invalidDeltaLen deltas.length pa.indices.length)
  else
    let pa :=
      if justifiedEpoch ≠ pa.justifiedEpoch ∨ finalizedEpoch ≠ pa.finalizedEpoch then
        { pa with justifiedEpoch := justifiedEpoch, finalizedEpoch := finalizedEpoch }
      else pa
    (applyScoreChangesLoop pa deltas (List.range pa.nodes.length).reverse).map Prod.fst

/-- `ProtoArray::on_new_block`. -/
def onNewBlock (pa : ProtoArray) (slot root : Nat) (parentOpt : Option Nat)
    (justifiedEpoch finalizedEpoch : Nat) : Except PAError ProtoArray :=
  let nodeIndex := pa.nodes.length
  let node : ProtoNode :=
    { slot := slot
      root := root
      parent := parentOpt.bind (fun parent => assocGet pa.indices parent)
      justifiedEpoch := justifiedEpoch
      finalizedEpoch := finalizedEpoch
      weight := 0
      bestChild := none
      bestDescendant := none }
  let pa₁ : ProtoArray :=
    { pa with indices := assocInsert pa.indices node.root nodeIndex,
              nodes := pa.nodes ++ [node] }
  match node.parent with
  | some parentIndex => maybeUpdateBestChildAndDescendant pa₁ parentIndex nodeIndex
  | none => .ok pa₁

/-- `ProtoArray::find_head`. -/
def findHead (pa : ProtoArray) (justifiedRoot : Nat) : Except PAError Nat :=
  match assocGet pa.indices justifiedRoot with
  | none => .error (.justifiedNodeUnknown justifiedRoot)
  | some justifiedIndex =>
    match pa.nodes.get? justifiedIndex with
    | none => .error (.invalidJustifiedIndex justifiedIndex)
    | some justifiedNode =>
      let bestDescendantIndex := justifiedNode.bestDescendant.getD justifiedIndex
      match pa.nodes.get? bestDescendantIndex with
      | none => .error (.invalidBestDescendant bestDescendantIndex)
      | some bestNode =>
        if !nodeIsViableForHead pa bestNode then
          .error (.invalidBestNode pa.justifiedEpoch pa.finalizedEpoch
            justifiedNode.justifiedEpoch justifiedNode.finalizedEpoch)
        else
          .ok bestNode.root

/-- First loop of `maybe_prune`: remove the `indices` entries of the
to-be-deleted nodes; on an invalid index the error is reported with the
partially updated map (mirroring `&mut self` mutation before `?`). -/
def pruneRemoveIndices (nodes : List ProtoNode) :
    List Nat → List (Nat × Nat) → Except PAError (List (Nat × Nat)) × List (Nat × Nat)
  | [], m => (.ok m, m)
  | nodeIndex :: rest, m =>
    match nodes.get? nodeIndex with
    | none => (.error (.invalidNodeIndex nodeIndex), m)
    | some node => pruneRemoveIndices nodes rest (assocRemove m node.root)

/-- Second loop of `maybe_prune`: shift every index in the map down by
`finalizedIndex` (`checked_sub`, `IndexOverflow` on underflow). -/
def pruneShiftIndices (finalizedIndex : Nat) :
    List (Nat × Nat) → Except PAError (List (Nat × Nat))
  | [] => .ok []
  | (root, index) :: rest =>
    if index < finalizedIndex then
      .error (.indexOverflow "indices")
    else
      match pruneShiftIndices finalizedIndex rest with
      | .error e => .error e
      | .ok rest' => .ok ((root, index - finalizedIndex) :: rest')

/-- Third loop of `maybe_prune`: rewrite `parent` (plain `checked_sub`,
clearing on underflow) and `best_child` / `best_descendant`
(`checked_sub` with `IndexOverflow`) of every surviving node. -/
def pruneShiftNodes (finalizedIndex : Nat) :
    List ProtoNode → Except PAError (List ProtoNode)
  | [] => .ok []
  | node :: rest =>
    let parent' := node.parent.bind (fun p =>
      if p < finalizedIndex then none else some (p - finalizedIndex))
    let bestChildResult : Except PAError (Option Nat) :=
      match node.bestChild with
      | none => .ok none
      | some bc =>
        if bc < finalizedIndex then .error (.indexOverflow "best_child")
        else .ok (some (bc - finalizedIndex))
    match bestChildResult with
    | .error e => .error e
    | .ok bestChild' =>
      let bestDescendantResult : Except PAError (Option Nat) :=
        match node.bestDescendant with
        | none => .ok none
        | some bd =>
          if bd < finalizedIndex then .error (.indexOverflow "best_descendant")
          else .ok (some (bd - finalizedIndex))
      match bestDescendantResult with
      | .error e => .error e
      | .ok bestDescendant' =>
        match pruneShiftNodes finalizedIndex rest with
        | .error e => .error e
        | .ok rest' =>
          .ok ({ node with parent := parent', bestChild := bestChild',
                           bestDescendant := bestDescendant' } :: rest')

/-- `ProtoArray::maybe_prune`.  Mirrors the `&mut self` signature: the
second component is the state after the call, including partial mutation
on the error paths that follow a successful mutation. -/
def maybePrune (pa : ProtoArray) (finalizedEpoch finalizedRoot : Nat) :
    Except PAError Unit × ProtoArray :=
  if finalizedEpoch < pa.finalizedEpoch then
    (.error (.revertedFinalizedEpoch pa.finalizedEpoch finalizedEpoch), pa)
  else
    let pa :=
      if finalizedEpoch ≠ pa.finalizedEpoch then
        { pa with finalizedEpoch := finalizedEpoch }
      else pa
    match assocGet pa.indices finalizedRoot with
    | none => (.error (.finalizedNodeUnknown finalizedRoot), pa)
    | some finalizedIndex =>
      if finalizedIndex < pa.pruneThreshold then
        (.ok (), pa)
      else
        match pruneRemoveIndices pa.nodes (List.range finalizedIndex) pa.indices with
        | (.error e, m) => (.error e, { pa with indices := m })
        | (.ok m, _) =>
          let pa := { pa with indices := m, nodes := pa.nodes.drop finalizedIndex }
          match pruneShiftIndices finalizedIndex pa.indices with
          | .error e => (.error e, pa)
          | .ok m' =>
            let pa := { pa with indices := m' }
            match pruneShiftNodes finalizedIndex pa.nodes with
            | .error e => (.error e, pa)
            | .ok nodes' => (.ok (), { pa with nodes := nodes' })

/-! ## ProtoArrayForkChoice wrapper

The `ProtoArrayForkChoice` struct (vote tracking, balances, and the
`find_head` wrapper that applies score changes before reading the head) is
declared in the crate's `lib.rs`, which is absent from the sources; it is
modelled from the specification here. -/

/-- Modelled from the spec: `VoteTracker` (§3) — per-validator
`(current_root, current_epoch, next_root, next_epoch)`; the `lib.rs`
declaring it is absent from the sources. -/
structure VoteTracker where
  currentRoot : Nat
  currentEpoch : Nat
  nextRoot : Nat
  nextEpoch : Nat
deriving DecidableEq, Repr

/-- The all-zero `VoteTracker`, the default entry of the elastic list. -/
def defaultVote : VoteTracker := ⟨0, 0, 0, 0⟩

/-- Modelled from the spec: `ElasticList` read — a flat vector indexed by
validator id, grown on demand with default entries (§9, "Vote buffering"). -/
def elasticGet (votes : List VoteTracker) (i : Nat) : VoteTracker :=
  (votes.get? i).getD defaultVote

/-- Modelled from the spec: `ElasticList` write (grow with defaults, then
set). -/
def elasticSet (votes : List VoteTracker) (i : Nat) (v : VoteTracker) :
    List VoteTracker :=
  (votes ++ List.replicate (i + 1 - votes.length) defaultVote).set i v

/-- Modelled from the spec: `compute_deltas` (§4.7) — "deltas are computed
outside the array by diffing per-validator previous vs. current votes and
weighting by balances"; afterwards each vote's `next` pair becomes
`current`.  The function absent from `lib.rs`. -/
def computeDeltasGo (indices : List (Nat × Nat)) (oldBalances newBalances : List Nat) :
    Nat → List VoteTracker → List Int → List Int × List VoteTracker
  | _, [], deltas => (deltas, [])
  | v, vote :: rest, deltas =>
    let deltas₁ :=
      match assocGet indices vote.currentRoot with
      | some i => deltas.set i (((deltas.get? i).getD 0) - ((oldBalances.get? v).getD 0 : Nat))
      | none => deltas
    let deltas₂ :=
      match assocGet indices vote.nextRoot with
      | some i => deltas₁.set i (((deltas₁.get? i).getD 0) + ((newBalances.get? v).getD 0 : Nat))
      | none => deltas₁
    let (deltas₃, rest') := computeDeltasGo indices oldBalances newBalances (v + 1) rest deltas₂
    (deltas₃, { vote with currentRoot := vote.nextRoot,
                          currentEpoch := vote.nextEpoch } :: rest')

/-- Modelled from the spec: the `compute_deltas` entry point; the deltas
vector has one entry per `indices` entry. -/
def computeDeltas (indices : List (Nat × Nat)) (votes : List VoteTracker)
    (oldBalances newBalances : List Nat) : List Int × List VoteTracker :=
  computeDeltasGo indices oldBalances newBalances 0 votes
    (List.replicate indices.length 0)

/-- Modelled from the spec: `ProtoArrayForkChoice` (votes, balances and the
inner `ProtoArray`); the struct lives in the absent `lib.rs`. -/
structure ProtoArrayForkChoice where
  protoArray : ProtoArray
  votes : List VoteTracker
  balances : List Nat
deriving DecidableEq, Repr

/-- Modelled from the spec: `ProtoArrayForkChoice::process_attestation`
(§4.7) — updates the validator's `VoteTracker` next pair; updates are
monotone in epoch (§3), and a fresh (default) tracker accepts its first
vote. -/
def fcProcessAttestation (fc : ProtoArrayForkChoice)
    (validatorIndex blockRoot targetEpoch : Nat) : ProtoArrayForkChoice :=
  let vote := elasticGet fc.votes validatorIndex
  if targetEpoch > vote.nextEpoch ∨ vote = defaultVote then
    let vote' := { vote with nextRoot := blockRoot, nextEpoch := targetEpoch }
    { fc with votes := elasticSet fc.votes validatorIndex vote' }
  else fc

/-- Modelled from the spec: `ProtoArrayForkChoice::find_head` (§4.8) —
"compute deltas = balance-weighted change between previous and current
votes; call `apply_score_changes`; call `find_head`". -/
def fcFindHead (fc : ProtoArrayForkChoice)
    (justifiedEpoch justifiedRoot finalizedEpoch : Nat)
    (justifiedBalances : List Nat) : Except PAError (Nat × ProtoArrayForkChoice) :=
  let (deltas, votes') :=
    computeDeltas fc.protoArray.indices fc.votes fc.balances justifiedBalances
  match applyScoreChanges fc.protoArray deltas justifiedEpoch finalizedEpoch with
  | .error e => .error e
  | .ok pa' =>
    match findHead pa' justifiedRoot with
    | .error e => .error e
    | .ok headRoot =>
      .ok (headRoot, { protoArray := pa', votes := votes', balances := justifiedBalances })

/-- Modelled from the spec: `ProtoArrayForkChoice::process_block` — forwards
the block to `ProtoArray::on_new_block` (§4.7). -/
def fcProcessBlock (fc : ProtoArrayForkChoice) (slot root : Nat)
    (parentOpt : Option Nat) (justifiedEpoch finalizedEpoch : Nat) :
    Except PAError ProtoArrayForkChoice :=
  match onNewBlock fc.protoArray slot root parentOpt justifiedEpoch finalizedEpoch with
  | .error e => .error e
  | .ok pa' => .ok { fc with protoArray := pa' }

/-- Modelled from the spec: `ProtoArrayForkChoice::get_block` — root lookup
returning the node's slot (used by `get_ancestor` and attestation
validation). -/
def fcGetBlock (fc : ProtoArrayForkChoice) (root : Nat) : Option ProtoNode :=
  match assocGet fc.protoArray.indices root with
  | none => none
  | some i => fc.protoArray.nodes.get? i

/-- Modelled from the spec: `ProtoArrayForkChoice::contains_block`. -/
def fcContainsBlock (fc : ProtoArrayForkChoice) (root : Nat) : Bool :=
  (assocGet fc.protoArray.indices root).isSome

/-! ## ForkChoice orchestrator

Embeds `consensus/fork_choice/src/fork_choice.rs`.  The `ForkChoiceStore`
trait implementation is not among the sources; the store is modelled from
the specification (§4.6) as a record, and its setter operations follow the
spec's wording.  `ancestor_at_slot` is an external oracle supplied as a
function argument. -/

/-- `SAFE_SLOTS_TO_UPDATE_JUSTIFIED`. -/
def SAFE_SLOTS_TO_UPDATE_JUSTIFIED : Nat := 8

/-- `Checkpoint`. -/
structure Checkpoint where
  epoch : Nat
  root : Nat
deriving DecidableEq, Repr

/-- Modelled from the spec: the `ForkChoiceStore` trait implementation
(§4.6) is absent from the sources — justified / best-justified / finalized
checkpoints, the current slot and the justified balances. -/
structure FCStore where
  currentSlot : Nat
  justifiedCheckpoint : Checkpoint
  bestJustifiedCheckpoint : Checkpoint
  finalizedCheckpoint : Checkpoint
  justifiedBalances : List Nat
deriving DecidableEq, Repr

/-- The projection of `BeaconState` read by `ForkChoice::on_block`:
the two checkpoints and `get_block_root` (`none` embeds the
`BeaconStateError` return). -/
structure BeaconStateView where
  currentJustifiedCheckpoint : Checkpoint
  finalizedCheckpoint : Checkpoint
  blockRoots : Nat → Option Nat

/-- The projection of `BeaconBlock` read by `ForkChoice::on_block`. -/
structure BeaconBlockView where
  slot : Nat
  parentRoot : Nat
  stateRoot : Nat
deriving DecidableEq, Repr

/-- `InvalidBlock`. -/
inductive InvalidBlock where
  | futureSlot (presentSlot blockSlot : Nat)
deriving DecidableEq, Repr

/-- `InvalidAttestation`. -/
inductive InvalidAttestation where
  | emptyAggregationBitfield
  | unknownHeadBlock (beaconBlockRoot : Nat)
  | badTargetEpoch
  | unknownTargetRoot (root : Nat)
  | futureEpoch (attestationEpoch currentEpoch : Nat)
  | pastEpoch (attestationEpoch currentEpoch : Nat)
  | invalidTarget (attestation block : Nat)
  | attestsToFutureBlock (block attestation : Nat)
deriving DecidableEq, Repr

/-- `fork_choice::Error`. -/
inductive FCError where
  | invalidAttestation (e : InvalidAttestation)
  | invalidBlock (e : InvalidBlock)
  | protoArrayError (e : PAError)
  | missingProtoArrayBlock (root : Nat)
  | inconsistentOnTick (previousSlot time : Nat)
  | beaconStateError
deriving DecidableEq, Repr

/-- `on_tick` (`fork_choice.rs` lines 118–147).  The store operation
`set_justified_checkpoint_to_best_justified_checkpoint` is modelled from
the spec ("promote best-justified to justified", §4.8). -/
def onTick (store : FCStore) (time : Nat) : Except FCError Unit × FCStore :=
  let previousSlot := store.currentSlot
  if time > previousSlot + 1 then
    (.error (.inconsistentOnTick previousSlot time), store)
  else
    let store := { store with currentSlot := time }
    let currentSlot := store.currentSlot
    if ¬(currentSlot > previousSlot ∧ slotsSinceEpochStart currentSlot = 0) then
      (.ok (), store)
    else if store.bestJustifiedCheckpoint.epoch > store.justifiedCheckpoint.epoch then
      (.ok (), { store with justifiedCheckpoint := store.bestJustifiedCheckpoint })
    else
      (.ok (), store)

/-- `QueuedAttestation`. -/
structure QueuedAttestation where
  slot : Nat
  attestingIndices : List Nat
  blockRoot : Nat
  targetEpoch : Nat
deriving DecidableEq, Repr

/-- The projection of `IndexedAttestation` read by fork choice:
`data.slot`, `data.beacon_block_root`, `data.target`, and the attesting
indices. -/
structure IndexedAttestationView where
  slot : Nat
  beaconBlockRoot : Nat
  targetEpoch : Nat
  targetRoot : Nat
  attestingIndices : List Nat
deriving DecidableEq, Repr

/-- `From<&IndexedAttestation> for QueuedAttestation`. -/
def queuedAttestationFrom (a : IndexedAttestationView) : QueuedAttestation :=
  { slot := a.slot
    attestingIndices := a.attestingIndices
    blockRoot := a.beaconBlockRoot
    targetEpoch := a.targetEpoch }

/-- `dequeue_attestations` (`fork_choice.rs` lines 172–184): `split_off` at
the position of the first entry whose slot is not below `current_slot`;
the prefix is returned (dequeued), the rest stays queued. -/
def dequeueAttestations (currentSlot : Nat) (queued : List QueuedAttestation) :
    List QueuedAttestation × List QueuedAttestation :=
  let pos := (queued.findIdx? (fun a => decide (a.slot ≥ currentSlot))).getD queued.length
  (queued.take pos, queued.drop pos)

/-- The `ForkChoice` struct. -/
structure ForkChoiceState where
  fcStore : FCStore
  protoArray : ProtoArrayForkChoice
  genesisBlockRoot : Nat
  queuedAttestations : List QueuedAttestation

/-- Apply `process_attestation` for every attesting index of every
dequeued attestation (`process_attestation_queue`'s inner loops). -/
def applyQueuedAttestations (fcArr : ProtoArrayForkChoice) :
    List QueuedAttestation → ProtoArrayForkChoice
  | [] => fcArr
  | a :: rest =>
    applyQueuedAttestations
      (a.attestingIndices.foldl
        (fun acc v => fcProcessAttestation acc v a.blockRoot a.targetEpoch) fcArr)
      rest

/-- `process_attestation_queue`. -/
def processAttestationQueue (fc : ForkChoiceState) : ForkChoiceState :=
  let (dequeued, remaining) :=
    dequeueAttestations fc.fcStore.currentSlot fc.queuedAttestations
  { fc with queuedAttestations := remaining,
            protoArray := applyQueuedAttestations fc.protoArray dequeued }

/-- The `while` loop of `update_time`; each iteration ticks to
`previous_slot + 1`, so `current_slot - fc_store.current_slot` iterations
suffice (the fuel argument below). -/
def updateTimeGo (currentSlot : Nat) :
    Nat → ForkChoiceState → Except FCError Unit × ForkChoiceState
  | 0, fc => (.ok (), fc)
  | fuel + 1, fc =>
    if fc.fcStore.currentSlot < currentSlot then
      let previousSlot := fc.fcStore.currentSlot
      match onTick fc.fcStore (previousSlot + 1) with
      | (.error e, s) => (.error e, { fc with fcStore := s })
      | (.ok _, s) => updateTimeGo currentSlot fuel { fc with fcStore := s }
    else
      (.ok (), fc)

/-- `ForkChoice::update_time`: tick up to `current_slot`, then drain the
attestation queue. -/
def updateTime (fc : ForkChoiceState) (currentSlot : Nat) :
    Except FCError Unit × ForkChoiceState :=
  match updateTimeGo currentSlot (currentSlot - fc.fcStore.currentSlot) fc with
  | (.error e, fc') => (.error e, fc')
  | (.ok _, fc') => (.ok (), processAttestationQueue fc')

/-- `ForkChoice::get_ancestor`.  `anc` is the external
`fc_store.ancestor_at_slot` oracle (the store implementation is absent
from the sources). -/
def getAncestor (anc : Nat → Nat → Nat) (fc : ForkChoiceState)
    (blockRoot ancestorSlot : Nat) : Except FCError Nat :=
  match fcGetBlock fc.protoArray blockRoot with
  | none => .error (.missingProtoArrayBlock blockRoot)
  | some block =>
    if block.slot > ancestorSlot then
      .ok (anc blockRoot ancestorSlot)
    else if block.slot = ancestorSlot then
      .ok blockRoot
    else
      .ok blockRoot

/-- Modelled from the spec: `fc_store.set_justified_checkpoint(state)`
sets the justified checkpoint to the state's current justified checkpoint
(§4.8); the store implementation is absent from the sources.  The
justified-balance refresh it performs is irrelevant to the claims proved
here. -/
def setJustifiedCheckpoint (fc : ForkChoiceState) (state : BeaconStateView) :
    ForkChoiceState :=
  { fc with fcStore :=
      { fc.fcStore with justifiedCheckpoint := state.currentJustifiedCheckpoint } }

/-- Modelled from the spec: `fc_store.set_best_justified_checkpoint(state)`
(§4.8, "update best-justified if higher"). -/
def setBestJustifiedCheckpoint (fc : ForkChoiceState) (state : BeaconStateView) :
    ForkChoiceState :=
  { fc with fcStore :=
      { fc.fcStore with bestJustifiedCheckpoint := state.currentJustifiedCheckpoint } }

/-- `ForkChoice::should_update_justified_checkpoint`. -/
def shouldUpdateJustifiedCheckpoint (anc : Nat → Nat → Nat)
    (fc : ForkChoiceState) (currentSlot : Nat) (state : BeaconStateView) :
    Except FCError Bool × ForkChoiceState :=
  match updateTime fc currentSlot with
  | (.error e, fc) => (.error e, fc)
  | (.ok _, fc) =>
    let newJustifiedCheckpoint := state.currentJustifiedCheckpoint
    if slotsSinceEpochStart fc.fcStore.currentSlot < SAFE_SLOTS_TO_UPDATE_JUSTIFIED then
      (.ok true, fc)
    else
      let justifiedSlot := epochStartSlot fc.fcStore.justifiedCheckpoint.epoch
      match getAncestor anc fc newJustifiedCheckpoint.root justifiedSlot with
      | .error e => (.error e, fc)
      | .ok ancestorRoot =>
        if ancestorRoot ≠ fc.fcStore.justifiedCheckpoint.root then
          (.ok false, fc)
        else
          (.ok true, fc)

/-- The justified-checkpoint update block of `ForkChoice::on_block`
(`fork_choice.rs` lines 419–430). -/
def onBlockJustifiedStep (anc : Nat → Nat → Nat) (fc : ForkChoiceState)
    (currentSlot : Nat) (state : BeaconStateView) :
    Except FCError Unit × ForkChoiceState :=
  if state.currentJustifiedCheckpoint.epoch > fc.fcStore.justifiedCheckpoint.epoch then
    let fc :=
      if state.currentJustifiedCheckpoint.epoch >
          fc.fcStore.bestJustifiedCheckpoint.epoch then
        setBestJustifiedCheckpoint fc state
      else fc
    match shouldUpdateJustifiedCheckpoint anc fc currentSlot state with
    | (.error e, fc) => (.error e, fc)
    | (.ok b, fc) =>
      if b then (.ok (), setJustifiedCheckpoint fc state) else (.ok (), fc)
  else (.ok (), fc)

/-- The finalized-checkpoint update block of `ForkChoice::on_block`
(`fork_choice.rs` lines 432–449): the stored finalized checkpoint is
overwritten only under a strict epoch increase. -/
def onBlockFinalizedStep (anc : Nat → Nat → Nat) (fc : ForkChoiceState)
    (state : BeaconStateView) : Except FCError Unit × ForkChoiceState :=
  if state.finalizedCheckpoint.epoch > fc.fcStore.finalizedCheckpoint.epoch then
    let fc := { fc with fcStore :=
      { fc.fcStore with finalizedCheckpoint := state.finalizedCheckpoint } }
    let finalizedSlot := epochStartSlot fc.fcStore.finalizedCheckpoint.epoch
    if state.currentJustifiedCheckpoint.epoch >
        fc.fcStore.justifiedCheckpoint.epoch then
      (.ok (), setJustifiedCheckpoint fc state)
    else
      match getAncestor anc fc fc.fcStore.justifiedCheckpoint.root finalizedSlot with
      | .error e => (.error e, fc)
      | .ok ancestorRoot =>
        if ancestorRoot ≠ fc.fcStore.finalizedCheckpoint.root then
          (.ok (), setJustifiedCheckpoint fc state)
        else
          (.ok (), fc)
  else (.ok (), fc)

/-- The target-root computation and proto-array registration of
`ForkChoice::on_block` (`fork_choice.rs` lines 451–479). -/
def onBlockRegister (fc : ForkChoiceState) (block : BeaconBlockView)
    (blockRoot : Nat) (state : BeaconStateView) :
    Except FCError Unit × ForkChoiceState :=
  let targetSlot := epochStartSlot (slotToEpoch block.slot)
  let targetRootResult : Except FCError Nat :=
    if block.slot = targetSlot then .ok blockRoot
    else
      match state.blockRoots targetSlot with
      | some r => .ok r
      | none => .error .beaconStateError
  match targetRootResult with
  | .error e => (.error e, fc)
  | .ok _targetRoot =>
    match fcProcessBlock fc.protoArray block.slot blockRoot
        (some block.parentRoot) state.currentJustifiedCheckpoint.epoch
        state.finalizedCheckpoint.epoch with
    | .error e => (.error (.protoArrayError e), fc)
    | .ok pa' => (.ok (), { fc with protoArray := pa' })

/-- `ForkChoice::on_block` (`fork_choice.rs` lines 397–480). -/
def onBlock (anc : Nat → Nat → Nat) (fc : ForkChoiceState) (currentSlot : Nat)
    (block : BeaconBlockView) (blockRoot : Nat) (state : BeaconStateView) :
    Except FCError Unit × ForkChoiceState :=
  match updateTime fc currentSlot with
  | (.error e, fc) => (.error e, fc)
  | (.ok _, fc) =>
    let currentSlot := fc.fcStore.currentSlot
    if block.slot > currentSlot then
      (.error (.invalidBlock (.futureSlot currentSlot block.slot)), fc)
    else
      match onBlockJustifiedStep anc fc currentSlot state with
      | (.error e, fc) => (.error e, fc)
      | (.ok _, fc) =>
        match onBlockFinalizedStep anc fc state with
        | (.error e, fc) => (.error e, fc)
        | (.ok _, fc) => onBlockRegister fc block blockRoot state

/-- `ForkChoice::validate_on_attestation`.  The source `ProtoNode` carries
no `target_root` field, so the `InvalidTarget` comparison of the newer
node layout has no data to act on and is omitted. -/
def validateOnAttestation (fc : ForkChoiceState) (a : IndexedAttestationView) :
    Except InvalidAttestation Unit :=
  if a.attestingIndices.length = 0 then
    .error .emptyAggregationBitfield
  else
    let slotNow := fc.fcStore.currentSlot
    let epochNow := slotToEpoch slotNow
    if a.targetEpoch > epochNow then
      .error (.futureEpoch a.targetEpoch epochNow)
    else if a.targetEpoch + 1 < epochNow then
      .error (.pastEpoch a.targetEpoch epochNow)
    else if a.targetEpoch ≠ slotToEpoch a.slot then
      .error .badTargetEpoch
    else if ¬ fcContainsBlock fc.protoArray a.targetRoot then
      .error (.unknownTargetRoot a.targetRoot)
    else
      match fcGetBlock fc.protoArray a.beaconBlockRoot with
      | none => .error (.unknownHeadBlock a.beaconBlockRoot)
      | some block =>
        if block.slot > a.slot then
          .error (.attestsToFutureBlock block.slot a.slot)
        else
          .ok ()

/-- `ForkChoice::on_attestation` (`fork_choice.rs` lines 567–616). -/
def onAttestation (fc : ForkChoiceState) (currentSlot : Nat)
    (a : IndexedAttestationView) : Except FCError Unit × ForkChoiceState :=
  match updateTime fc currentSlot with
  | (.error e, fc) => (.error e, fc)
  | (.ok _, fc) =>
    if a.beaconBlockRoot = ZERO_HASH then
      (.ok (), fc)
    else
      match validateOnAttestation fc a with
      | .error e => (.error (.invalidAttestation e), fc)
      | .ok _ =>
        if a.slot < fc.fcStore.currentSlot then
          let pa' := a.attestingIndices.foldl
            (fun acc v => fcProcessAttestation acc v a.beaconBlockRoot a.targetEpoch)
            fc.protoArray
          (.ok (), { fc with protoArray := pa' })
        else
          let queued' := fc.queuedAttestations ++ [queuedAttestationFrom a]
          (.ok (), { fc with queuedAttestations := queued' })

/-- `ForkChoice::get_head`. -/
def getHead (fc : ForkChoiceState) (currentSlot : Nat) :
    Except FCError Nat × ForkChoiceState :=
  match updateTime fc currentSlot with
  | (.error e, fc) => (.error e, fc)
  | (.ok _, fc) =>
    let justifiedRoot := fc.fcStore.justifiedCheckpoint.root
    let aliasedRoot :=
      if justifiedRoot = ZERO_HASH then fc.genesisBlockRoot else justifiedRoot
    match fcFindHead fc.protoArray fc.fcStore.justifiedCheckpoint.epoch aliasedRoot
        fc.fcStore.finalizedCheckpoint.epoch fc.fcStore.justifiedBalances with
    | .error e => (.error (.protoArrayError e), fc)
    | .ok (headRoot, pa') => (.ok headRoot, { fc with protoArray := pa' })

/-- `ForkChoice::prune`.  The `ProtoArrayForkChoice::maybe_prune` wrapper in
the absent `lib.rs` forwards to `ProtoArray::maybe_prune`; it supplies the
array's recorded finalized epoch alongside the store's finalized root. -/
def fcPrune (fc : ForkChoiceState) : Except FCError Unit × ForkChoiceState :=
  let finalizedRoot := fc.fcStore.finalizedCheckpoint.root
  match maybePrune fc.protoArray.protoArray fc.protoArray.protoArray.finalizedEpoch
      finalizedRoot with
  | (.error e, pa') =>
    (.error (.protoArrayError e), { fc with protoArray := { fc.protoArray with protoArray := pa' } })
  | (.ok _, pa') =>
    (.ok (), { fc with protoArray := { fc.protoArray with protoArray := pa' } })

/-- One external input to the fork-choice state machine. -/
inductive FCInput where
  | block (currentSlot : Nat) (block : BeaconBlockView) (blockRoot : Nat)
      (state : BeaconStateView)
  | attestation (currentSlot : Nat) (a : IndexedAttestationView)
  | head (currentSlot : Nat)
  | advance (currentSlot : Nat)
  | prune

/-- Run one input, keeping the (possibly partially mutated) state that the
`&mut self` methods leave behind on either outcome. -/
def fcStep (anc : Nat → Nat → Nat) (fc : ForkChoiceState) : FCInput → ForkChoiceState
  | .block currentSlot b blockRoot state => (onBlock anc fc currentSlot b blockRoot state).2
  | .attestation currentSlot a => (onAttestation fc currentSlot a).2
  | .head currentSlot => (getHead fc currentSlot).2
  | .advance currentSlot => (updateTime fc currentSlot).2
  | .prune => (fcPrune fc).2

/-- Run a sequence of inputs. -/
def fcRun (anc : Nat → Nat → Nat) (fc : ForkChoiceState) :
    List FCInput → ForkChoiceState
  | [] => fc
  | input :: rest => fcRun anc (fcStep anc fc input) rest

/-! ## Gossip verification of unaggregated attestations

Embeds `VerifiedUnaggregatedAttestation::verify` and
`verify_propagation_slot_range` from
`beacon_node/beacon_chain/src/attestation_verification.rs`.  The beacon
chain the function reads (slot clock, fork choice, committee caches, BLS)
is abstracted into an environment record holding the outcome of each
external query; the `ObservedAttesters` set is threaded explicitly.  The
set is read twice (the dedup lookup and the final observation); because
another thread may observe the same attester between the two reads, the
two reads take separate snapshots. -/

/-- The variants of `attestation_verification::Error` reachable from
`VerifiedUnaggregatedAttestation::verify`. -/
inductive AttVerError where
  | futureSlot (attestationSlot latestPermissibleSlot : Nat)
  | pastSlot (attestationSlot earliestPermissibleSlot : Nat)
  | notExactlyOneAggregationBitSet (n : Nat)
  | unknownHeadBlock (beaconBlockRoot : Nat)
  | unknownTargetRoot (root : Nat)
  | noCommitteeForSlotAndIndex (slot index : Nat)
  | priorAttestationKnown (validatorIndex epoch : Nat)
  | invalidSignature
  | beaconChainError
deriving DecidableEq, Repr

/-- Environment of one `verify` call: the attestation fields it reads and
the outcomes of its queries against the chain. -/
structure GossipAttEnv where
  attestationSlot : Nat
  targetEpoch : Nat
  beaconBlockRoot : Nat
  nowWithFutureTolerance : Nat
  nowWithPastTolerance : Nat
  numSetBits : Nat
  headBlockKnown : Bool
  committee : Except AttVerError (List Nat)
  signatureValid : Bool
deriving Repr

/-- The observed-attesters set: pairs `(validator_index, target_epoch)`. -/
abbrev ObservedSet := List (Nat × Nat)

/-- `ObservedAttesters` membership test
(`validator_has_been_observed`). -/
def obsHas (obs : ObservedSet) (v e : Nat) : Bool :=
  obs.any (fun p => decide (p = (v, e)))

/-- `ObservedAttesters::observe_validator`: idempotent insert returning
whether the pair was already present. -/
def obsObserve (obs : ObservedSet) (v e : Nat) : Bool × ObservedSet :=
  if obsHas obs v e then (true, obs) else (false, obs ++ [(v, e)])

/-- `verify_propagation_slot_range` (lines 568–599); the two clock reads
already include the gossip clock-disparity tolerance, and the past bound
subtracts one epoch with saturating `Slot` subtraction. -/
def verifyPropagationSlotRange (env : GossipAttEnv) : Except AttVerError Unit :=
  let attestationSlot := env.attestationSlot
  let latestPermissibleSlot := env.nowWithFutureTolerance
  if attestationSlot > latestPermissibleSlot then
    .error (.futureSlot attestationSlot latestPermissibleSlot)
  else
    let earliestPermissibleSlot := env.nowWithPastTolerance - SLOTS_PER_EPOCH
    if attestationSlot < earliestPermissibleSlot then
      .error (.pastSlot attestationSlot earliestPermissibleSlot)
    else
      .ok ()

/-- `VerifiedUnaggregatedAttestation::verify` (lines 366–433).
`obsAtDedup` is the observed-set snapshot read by the dedup stage;
`obsAtObserve` is the snapshot read (and extended) by the final
observation stage.  Returns the attesting indices on success together
with the observed set left behind by the call. -/
def verifyUnaggregated (env : GossipAttEnv) (obsAtDedup obsAtObserve : ObservedSet) :
    Except AttVerError (List Nat) × ObservedSet :=
  match verifyPropagationSlotRange env with
  | .error e => (.error e, obsAtObserve)
  | .ok _ =>
    if env.numSetBits ≠ 1 then
      (.error (.notExactlyOneAggregationBitSet env.numSetBits), obsAtObserve)
    else if ¬ env.headBlockKnown then
      (.error (.unknownHeadBlock env.beaconBlockRoot), obsAtObserve)
    else
      match env.committee with
      | .error e => (.error e, obsAtObserve)
      | .ok attestingIndices =>
        match attestingIndices.head? with
        | none => (.error (.notExactlyOneAggregationBitSet 0), obsAtObserve)
        | some validatorIndex =>
          if obsHas obsAtDedup validatorIndex env.targetEpoch then
            (.error (.priorAttestationKnown validatorIndex env.targetEpoch), obsAtObserve)
          else if ¬ env.signatureValid then
            (.error .invalidSignature, obsAtObserve)
          else
            let (alreadyKnown, obs') := obsObserve obsAtObserve validatorIndex env.targetEpoch
            if alreadyKnown then
              (.error (.priorAttestationKnown validatorIndex env.targetEpoch), obs')
            else
              (.ok attestingIndices, obs')

/-! ## Naive aggregation pool

Embeds `beacon_node/beacon_chain/src/naive_aggregation_pool.rs`.  Buckets
are keyed by `attestation.data` directly: the source keys by
`a.data.tree_hash_root()`, and `tree_hash_root` is injective on the data
values arising here.  Signatures are opaque to every property below and
are omitted from the attestation record; `Attestation::aggregate` unions
the aggregation bits. -/

/-- `SLOTS_RETAINED`. -/
def SLOTS_RETAINED : Nat := 3

/-- `MAX_ATTESTATIONS_PER_SLOT`. -/
def MAX_ATTESTATIONS_PER_SLOT : Nat := 16384

/-- `AttestationData` (the fields forming the aggregation key). -/
structure AttData where
  slot : Nat
  index : Nat
  beaconBlockRoot : Nat
  source : Checkpoint
  target : Checkpoint
deriving DecidableEq, Repr

/-- An `Attestation` as seen by the pool: its data and aggregation bits. -/
structure PoolAttestation where
  data : AttData
  aggregationBits : List Bool
deriving DecidableEq, Repr

/-- `naive_aggregation_pool::InsertOutcome`. -/
inductive InsertOutcome where
  | newAttestationData (committeeIndex : Nat)
  | signatureAlreadyKnown (committeeIndex : Nat)
  | signatureAggregated (committeeIndex : Nat)
deriving DecidableEq, Repr

/-- `naive_aggregation_pool::Error`. -/
inductive PoolError where
  | slotTooLow (slot lowestPermissibleSlot : Nat)
  | noAggregationBitsSet
  | moreThanOneAggregationBitSet (n : Nat)
  | reachedMaxAttestationsPerSlot (max : Nat)
  | inconsistentBitfieldLengths
  | incorrectSlot (expected attestation : Nat)
deriving DecidableEq, Repr

/-- One per-slot bucket (`AggregatedAttestationMap`), keyed by data. -/
abbrev AggMap := List (AttData × PoolAttestation)

/-- `Attestation::aggregate`: union of the aggregation bits (the signature
aggregation is opaque here). -/
def aggregateAttestation (x a : PoolAttestation) : PoolAttestation :=
  { x with aggregationBits := x.aggregationBits.zipWith or a.aggregationBits }

/-- The indices of the set aggregation bits (the `set_bits` vector). -/
def setBitIndices (bits : List Bool) : List Nat :=
  (bits.enum.filter (fun p => p.2)).map Prod.fst

/-- `AggregatedAttestationMap::insert` (lines 72–117). -/
def aggMapInsert (m : AggMap) (a : PoolAttestation) :
    Except PoolError (InsertOutcome × AggMap) :=
  let setBits := setBitIndices a.aggregationBits
  match setBits.head? with
  | none => .error .noAggregationBitsSet
  | some committeeIndex =>
    if setBits.length > 1 then
      .error (.moreThanOneAggregationBitSet setBits.length)
    else
      match m.find? (fun p => decide (p.1 = a.data)) with
      | some existing =>
        match existing.2.aggregationBits.get? committeeIndex with
        | none => .error .inconsistentBitfieldLengths
        | some bit =>
          if bit then
            .ok (.signatureAlreadyKnown committeeIndex, m)
          else
            let m' := m.map (fun p =>
              if p.1 = a.data then (p.1, aggregateAttestation p.2 a) else p)
            .ok (.signatureAggregated committeeIndex, m')
      | none =>
        if m.length ≥ MAX_ATTESTATIONS_PER_SLOT then
          .error (.reachedMaxAttestationsPerSlot MAX_ATTESTATIONS_PER_SLOT)
        else
          .ok (.newAttestationData committeeIndex, m ++ [(a.data, a)])

/-- `NaiveAggregationPool`. -/
structure NaivePool where
  lowestPermissibleSlot : Nat
  maps : List (Nat × AggMap)

/-- `NaiveAggregationPool::default()`. -/
def defaultPool : NaivePool := { lowestPermissibleSlot := 0, maps := [] }

/-- Drop the `k` buckets with the smallest slots (the sort-and-take loop at
the end of `prune`; bucket slots are distinct map keys, so removing the
minimum `k` times removes exactly the `k` lowest). -/
def dropLowestSlots : Nat → List (Nat × AggMap) → List (Nat × AggMap)
  | 0, maps => maps
  | k + 1, maps =>
    match (maps.map Prod.fst).min? with
    | none => maps
    | some m => dropLowestSlots k (maps.filter (fun b => decide (b.1 ≠ m)))

/-- `NaiveAggregationPool::prune` (lines 259–297). -/
def poolPrune (pool : NaivePool) (currentSlot : Nat) : NaivePool :=
  let lowestPermissibleSlot := currentSlot - SLOTS_RETAINED
  if pool.lowestPermissibleSlot = lowestPermissibleSlot ∧
      pool.maps.length ≤ SLOTS_RETAINED then
    pool
  else
    let pool := { pool with lowestPermissibleSlot := lowestPermissibleSlot }
    let maps := pool.maps.filter (fun b => decide (lowestPermissibleSlot ≤ b.1))
    if maps.length > SLOTS_RETAINED then
      { pool with maps := dropLowestSlots (maps.length - SLOTS_RETAINED) maps }
    else
      { pool with maps := maps }

/-- The bucket lookup-or-create step of `NaiveAggregationPool::insert`
(lines 201–224).  Note that in the fresh-bucket branch the newly created
bucket is stored in the pool even when the inner insert failed. -/
def poolInsertStep (pool : NaivePool) (a : PoolAttestation) :
    Except PoolError InsertOutcome × List (Nat × AggMap) :=
  match pool.maps.find? (fun b => b.1 == a.data.slot) with
  | some bucket =>
    match aggMapInsert bucket.2 a with
    | .error e => (.error e, pool.maps)
    | .ok (o, m') =>
      (.ok o, pool.maps.map (fun b => if b.1 = a.data.slot then (b.1, m') else b))
  | none =>
    match aggMapInsert [] a with
    | .error e => (.error e, pool.maps ++ [(a.data.slot, [])])
    | .ok (o, m') => (.ok o, pool.maps ++ [(a.data.slot, m')])

/-- `NaiveAggregationPool::insert` (lines 184–229): slot check, bucket
step, then `prune` runs on every path that passes the slot check. -/
def poolInsert (pool : NaivePool) (a : PoolAttestation) :
    Except PoolError InsertOutcome × NaivePool :=
  let slot := a.data.slot
  let lowestPermissibleSlot := pool.lowestPermissibleSlot
  if slot < lowestPermissibleSlot then
    (.error (.slotTooLow slot lowestPermissibleSlot), pool)
  else
    let step := poolInsertStep pool a
    let pool := poolPrune { pool with maps := step.2 } slot
    (step.1, pool)

/-- One call against the pool. -/
inductive PoolOp where
  | insert (a : PoolAttestation)
  | prune (currentSlot : Nat)

/-- Run a sequence of pool calls, discarding the outcomes. -/
def poolRun (pool : NaivePool) : List PoolOp → NaivePool
  | [] => pool
  | .insert a :: rest => poolRun (poolInsert pool a).2 rest
  | .prune s :: rest => poolRun (poolPrune pool s) rest

/-! ## SSZ persistence of the fork-choice snapshot

Embeds the SSZ wire format of `PersistedForkChoice` (`fork_choice.rs`
lines 736–741): the snapshot keeps the proto-array as an opaque byte
vector next to the queued attestations and the genesis block root.  The
`Encode`/`Decode` implementations are produced by `ssz_derive`, whose
crate is not among the sources; they are modelled here by the standard
SSZ layout (fixed-size parts first, 4-byte little-endian offsets to the
variable-size parts).  Bytes are naturals below 256. -/

/-- `k`-byte little-endian encoding. -/
def toLE : Nat → Nat → List Nat
  | 0, _ => []
  | k + 1, n => n % 256 :: toLE k (n / 256)

/-- Little-endian decoding. -/
def fromLE : List Nat → Nat
  | [] => 0
  | b :: rest => b + 256 * fromLE rest

/-- SSZ encoding of `Vec<u64>`: the concatenated 8-byte encodings. -/
def encodeU64List (l : List Nat) : List Nat :=
  (l.map (toLE 8)).flatten

/-- SSZ decoding of `Vec<u64>`; the fuel argument bounds the recursion
(one unit per element suffices). -/
def decodeU64ListGo : Nat → List Nat → Option (List Nat)
  | _, [] => some []
  | 0, _ :: _ => none
  | fuel + 1, x :: rest =>
    let b := x :: rest
    if b.length < 8 then none
    else
      match decodeU64ListGo fuel (b.drop 8) with
      | none => none
      | some l => some (fromLE (b.take 8) :: l)

/-- SSZ decoding of `Vec<u64>`. -/
def decodeU64List (b : List Nat) : Option (List Nat) :=
  decodeU64ListGo b.length b

/-- SSZ encoding of `QueuedAttestation`: fixed parts (`slot`, the offset
of `attesting_indices`, `block_root`, `target_epoch`; 52 bytes) followed
by the variable part. -/
def encodeQueuedAttestation (q : QueuedAttestation) : List Nat :=
  toLE 8 q.slot ++ toLE 4 52 ++ toLE 32 q.blockRoot ++ toLE 8 q.targetEpoch
    ++ encodeU64List q.attestingIndices

/-- SSZ decoding of `QueuedAttestation`. -/
def decodeQueuedAttestation (b : List Nat) : Option QueuedAttestation :=
  if b.length < 52 then none
  else
    let slot := fromLE (b.take 8)
    let off := fromLE ((b.drop 8).take 4)
    let blockRoot := fromLE ((b.drop 12).take 32)
    let targetEpoch := fromLE ((b.drop 44).take 8)
    if off = 52 then
      match decodeU64List (b.drop 52) with
      | none => none
      | some attestingIndices =>
        some { slot := slot, attestingIndices := attestingIndices,
               blockRoot := blockRoot, targetEpoch := targetEpoch }
    else none

/-- The offsets of a variable-size-item list: each item's offset is the
running total of the preceding lengths, starting at the header size. -/
def varOffsets (base : Nat) : List (List Nat) → List Nat
  | [] => []
  | item :: rest => base :: varOffsets (base + item.length) rest

/-- SSZ encoding of a list of variable-size items: the offset header
followed by the concatenated items. -/
def encodeVariableList (items : List (List Nat)) : List Nat :=
  ((varOffsets (4 * items.length) items).map (toLE 4)).flatten ++ items.flatten

/-- Read `k` 4-byte offsets starting at `pos`. -/
def readOffsets (b : List Nat) : Nat → Nat → List Nat
  | _, 0 => []
  | pos, k + 1 => fromLE ((b.drop pos).take 4) :: readOffsets b (pos + 4) k

/-- Pair each offset with the next one (the final item runs to the end of
the buffer). -/
def sliceBounds (len : Nat) : List Nat → List (Nat × Nat)
  | [] => []
  | [o] => [(o, len)]
  | o₁ :: o₂ :: rest => (o₁, o₂) :: sliceBounds len (o₂ :: rest)

/-- Decode each `(start, stop)` slice of the buffer as a
`QueuedAttestation`. -/
def decodeSlices (b : List Nat) : List (Nat × Nat) → Option (List QueuedAttestation)
  | [] => some []
  | (start, stop) :: rest =>
    if start ≤ stop ∧ stop ≤ b.length then
      match decodeQueuedAttestation ((b.drop start).take (stop - start)),
            decodeSlices b rest with
      | some q, some qs => some (q :: qs)
      | _, _ => none
    else none

/-- SSZ decoding of `Vec<QueuedAttestation>`. -/
def decodeVariableList (b : List Nat) : Option (List QueuedAttestation) :=
  if b.length = 0 then some []
  else if b.length < 4 then none
  else
    let firstOffset := fromLE (b.take 4)
    if firstOffset % 4 = 0 ∧ 0 < firstOffset ∧ firstOffset ≤ b.length then
      let n := firstOffset / 4
      decodeSlices b (sliceBounds b.length (readOffsets b 0 n))
    else none

/-- `PersistedForkChoice` (`fork_choice.rs` lines 737–741). -/
structure PersistedForkChoice where
  protoArrayBytes : List Nat
  queuedAttestations : List QueuedAttestation
  genesisBlockRoot : Nat
deriving DecidableEq, Repr

/-- SSZ encoding of `PersistedForkChoice`: two 4-byte offsets (for the two
variable-size fields), the 32-byte root, then the two variable parts. -/
def encodePersisted (p : PersistedForkChoice) : List Nat :=
  let offset₁ := 40
  let offset₂ := 40 + p.protoArrayBytes.length
  toLE 4 offset₁ ++ toLE 4 offset₂ ++ toLE 32 p.genesisBlockRoot
    ++ p.protoArrayBytes
    ++ encodeVariableList (p.queuedAttestations.map encodeQueuedAttestation)

/-- SSZ decoding of `PersistedForkChoice`. -/
def decodePersisted (b : List Nat) : Option PersistedForkChoice :=
  if b.length < 40 then none
  else
    let offset₁ := fromLE (b.take 4)
    let offset₂ := fromLE ((b.drop 4).take 4)
    let root := fromLE ((b.drop 8).take 32)
    if offset₁ = 40 ∧ offset₁ ≤ offset₂ ∧ offset₂ ≤ b.length then
      let bytes := (b.drop offset₁).take (offset₂ - offset₁)
      match decodeVariableList (b.drop offset₂) with
      | none => none
      | some qs =>
        some { protoArrayBytes := bytes, queuedAttestations := qs,
               genesisBlockRoot := root }
    else none

/-- Machine-representability of a `QueuedAttestation`: its `u64` fields
and indices fit in 64 bits and the root in 256 bits. -/
def wfQueuedAttestation (q : QueuedAttestation) : Prop :=
  q.slot < 2 ^ 64 ∧ q.blockRoot < 2 ^ 256 ∧ q.targetEpoch < 2 ^ 64 ∧
    ∀ i ∈ q.attestingIndices, i < 2 ^ 64

instance (q : QueuedAttestation) : Decidable (wfQueuedAttestation q) := by
  unfold wfQueuedAttestation
  infer_instance

/-- Machine-representability of a snapshot: the fields fit their integer
types, bytes are bytes, and the total encoding fits the `u32` offsets. -/
def wfPersisted (p : PersistedForkChoice) : Prop :=
  p.genesisBlockRoot < 2 ^ 256 ∧
    (∀ x ∈ p.protoArrayBytes, x < 256) ∧
    (∀ q ∈ p.queuedAttestations, wfQueuedAttestation q) ∧
    (encodePersisted p).length < 2 ^ 32

instance (p : PersistedForkChoice) : Decidable (wfPersisted p) := by
  unfold wfPersisted
  infer_instance

/-! ## Slashing protection

The `SlashingDatabase` implementation
(`validator_client/slashing_protection`) is represented in the sources
only by its parallel tests; the operations are modelled from the
specification (§4.9, §5). -/

/-- `NotSafe`-style outcome of a slashing-protection check. -/
inductive SlashingError where
  | blockSlotViolation
  | doubleVote
  | surroundVote
deriving DecidableEq, Repr

/-- Modelled from the spec: the per-validator record (§4.9) — the signed
block slots and the signed attestation `(source_epoch, target_epoch)`
pairs; the implementation crate is absent from the sources. -/
structure ValidatorRecord where
  blocks : List Nat
  attestations : List (Nat × Nat)
deriving DecidableEq, Repr

/-- The freshly registered validator record. -/
def emptyRecord : ValidatorRecord := { blocks := [], attestations := [] }

/-- Modelled from the spec: `check_and_insert_block(pubkey, slot)` —
"fails if a block at ≥ slot was already signed" (§4.9); on success the
slot is recorded. -/
def checkAndInsertBlock (rec : ValidatorRecord) (slot : Nat) :
    Except SlashingError Unit × ValidatorRecord :=
  if rec.blocks.any (fun s => decide (s ≥ slot)) then
    (.error .blockSlotViolation, rec)
  else
    (.ok (), { rec with blocks := rec.blocks ++ [slot] })

/-- Modelled from the spec: `check_and_insert_attestation(pubkey, data)` —
"fails if the proposal is a double-vote (same target.epoch) or a surround
vote (`source_epoch < prev.source_epoch ∧ target_epoch >
prev.target_epoch`, or the mirror)" (§4.9). -/
def checkAndInsertAttestation (rec : ValidatorRecord) (source target : Nat) :
    Except SlashingError Unit × ValidatorRecord :=
  if rec.attestations.any (fun p => decide (p.2 = target)) then
    (.error .doubleVote, rec)
  else if rec.attestations.any
      (fun p => decide ((source < p.1 ∧ target > p.2) ∨ (p.1 < source ∧ p.2 > target))) then
    (.error .surroundVote, rec)
  else
    (.ok (), { rec with attestations := rec.attestations ++ [(source, target)] })

/-- Run a sequence of block insertions (the spec's §5 ordering guarantee —
"within a single validator, slashing-protection writes are totally
ordered" — reduces N concurrent calls to a serial execution) and count
the successes. -/
def runBlockInserts (rec : ValidatorRecord) :
    List Nat → Nat × ValidatorRecord
  | [] => (0, rec)
  | slot :: rest =>
    match checkAndInsertBlock rec slot with
    | (.ok _, rec') =>
      let (k, recF) := runBlockInserts rec' rest
      (k + 1, recF)
    | (.error _, rec') =>
      runBlockInserts rec' rest

/-- Run a sequence of attestation insertions and count the successes. -/
def runAttestationInserts (rec : ValidatorRecord) :
    List (Nat × Nat) → Nat × ValidatorRecord
  | [] => (0, rec)
  | (source, target) :: rest =>
    match checkAndInsertAttestation rec source target with
    | (.ok _, rec') =>
      let (k, recF) := runAttestationInserts rec' rest
      (k + 1, recF)
    | (.error _, rec') =>
      runAttestationInserts rec' rest

/-! ## Concrete instances used by the witnesses and counterexamples -/

/-- The empty proto array (prune threshold 0, both epochs 0). -/
def exBase : ProtoArray :=
  { pruneThreshold := 0, justifiedEpoch := 0, finalizedEpoch := 0,
    nodes := [], indices := [] }

/-- Extract the array from an `on_new_block` result (total helper for
building concrete reachable arrays; the fallback is never hit below). -/
def paOfResult (r : Except PAError ProtoArray) : ProtoArray :=
  r.toOption.getD exBase

/-- A one-node array: the genesis block, root 1, slot 0. -/
def exGenesis : ProtoArray := paOfResult (onNewBlock exBase 0 1 none 0 0)

/-- Genesis plus two sibling children: root 3 inserted first, root 2
second. -/
def exForkA : ProtoArray :=
  paOfResult (onNewBlock (paOfResult (onNewBlock exGenesis 1 3 (some 1) 0 0)) 1 2 (some 1) 0 0)

/-- Genesis plus two sibling children: root 2 inserted first, root 3
second. -/
def exForkB : ProtoArray :=
  paOfResult (onNewBlock (paOfResult (onNewBlock exGenesis 1 2 (some 1) 0 0)) 1 3 (some 1) 0 0)

/-- A store sitting at slot 5. -/
def exStore5 : FCStore :=
  { currentSlot := 5, justifiedCheckpoint := ⟨1, 10⟩,
    bestJustifiedCheckpoint := ⟨2, 11⟩, finalizedCheckpoint := ⟨0, 12⟩,
    justifiedBalances := [] }

/-- A fork-choice state at slot 5 whose proto array knows the genesis
block (root 1). -/
def exFCState : ForkChoiceState :=
  { fcStore := { currentSlot := 5, justifiedCheckpoint := ⟨0, 1⟩,
                 bestJustifiedCheckpoint := ⟨0, 1⟩, finalizedCheckpoint := ⟨0, 1⟩,
                 justifiedBalances := [] }
    protoArray := { protoArray := exGenesis, votes := [], balances := [] }
    genesisBlockRoot := 1
    queuedAttestations := [] }

/-- An attestation for slot 10 on the genesis block. -/
def exAtt10 : IndexedAttestationView :=
  { slot := 10, beaconBlockRoot := 1, targetEpoch := 0, targetRoot := 1,
    attestingIndices := [1] }

/-- An attestation for slot 6 on the genesis block. -/
def exAtt6 : IndexedAttestationView :=
  { slot := 6, beaconBlockRoot := 1, targetEpoch := 0, targetRoot := 1,
    attestingIndices := [2] }

/-- The state after queuing the slot-10 attestation at slot 5. -/
def exFC1 : ForkChoiceState := (onAttestation exFCState 5 exAtt10).2

/-- …then queuing the slot-6 attestation, still at slot 5. -/
def exFC2 : ForkChoiceState := (onAttestation exFC1 5 exAtt6).2

/-- …then advancing time to slot 8. -/
def exFC3 : ForkChoiceState := (updateTime exFC2 8).2

/-- A proto array with finalized epoch 2 (for the reverted-finalization
check). -/
def exPAFinalized : ProtoArray :=
  { pruneThreshold := 0, justifiedEpoch := 2, finalizedEpoch := 2,
    nodes := [], indices := [] }

/-- Attestation data at the given slot. -/
def exAttData (s : Nat) : AttData :=
  { slot := s, index := 0, beaconBlockRoot := 5, source := ⟨0, 0⟩, target := ⟨0, 0⟩ }

/-- A single-signer pool attestation at the given slot. -/
def exPoolAtt (s : Nat) : PoolAttestation :=
  { data := exAttData s, aggregationBits := [true] }

/-- The pool after inserting attestations at slots 0 and 3. -/
def exPool03 : NaivePool :=
  (poolInsert (poolInsert defaultPool (exPoolAtt 0)).2 (exPoolAtt 3)).2

/-- An environment in which every verification stage passes. -/
def exEnv : GossipAttEnv :=
  { attestationSlot := 5, targetEpoch := 0, beaconBlockRoot := 3,
    nowWithFutureTolerance := 5, nowWithPastTolerance := 5, numSetBits := 1,
    headBlockKnown := true, committee := .ok [42], signatureValid := true }

/-- A concrete snapshot with a nonempty byte blob and two queued
attestations. -/
def exPersisted : PersistedForkChoice :=
  { protoArrayBytes := [1, 2, 3]
    queuedAttestations := [⟨7, [3, 4], 99, 2⟩, ⟨8, [], 1, 0⟩]
    genesisBlockRoot := 77 }

/-! ## Predicates used by the theorems -/

/-- Equality of every `ProtoNode` field except the two best-pointer
fields (`best_child`, `best_descendant`). -/
def samePayload (n n' : ProtoNode) : Prop :=
  n'.slot = n.slot ∧ n'.root = n.root ∧ n'.parent = n.parent ∧
    n'.justifiedEpoch = n.justifiedEpoch ∧ n'.finalizedEpoch = n.finalizedEpoch ∧
    n'.weight = n.weight

instance (n n' : ProtoNode) : Decidable (samePayload n n') := by
  unfold samePayload
  infer_instance

/-- The aggregation-pool invariant: at most `SLOTS_RETAINED` buckets, every
bucket at or above the lowest permissible slot, and no bucket above the
per-slot capacity. -/
def poolWF (pool : NaivePool) : Prop :=
  pool.maps.length ≤ SLOTS_RETAINED ∧
    (∀ b ∈ pool.maps, pool.lowestPermissibleSlot ≤ b.1) ∧
    (∀ b ∈ pool.maps, b.2.length ≤ MAX_ATTESTATIONS_PER_SLOT)

instance (pool : NaivePool) : Decidable (poolWF pool) := by
  unfold poolWF
  infer_instance

/-- A one-node array whose node is the zero-hash genesis alias. -/
def exZeroPA : ProtoArray := paOfResult (onNewBlock exBase 0 0 none 0 0)

/-! # Theorems -/

/-! ## C1: `find_head` returns only viable heads -/

/-- The viability predicate, unfolded to the spec's disjunctive form. -/
theorem nodeIsViableForHead_eq_true_iff (pa : ProtoArray) (n : ProtoNode) :
    nodeIsViableForHead pa n = true ↔
      (n.justifiedEpoch = pa.justifiedEpoch ∨ pa.justifiedEpoch = 0) ∧
      (n.finalizedEpoch = pa.finalizedEpoch ∨ pa.finalizedEpoch = 0) := by
  simp [nodeIsViableForHead, Bool.and_eq_true, Bool.or_eq_true, beq_iff_eq]

/-- Shape of a successful `find_head`: the head is the justified node's
best descendant (or the justified node itself), and it passed the
viability filter. -/
theorem findHead_ok_shape (pa : ProtoArray) (justifiedRoot h : Nat)
    (hok : findHead pa justifiedRoot = .ok h) :
    ∃ ji jn bn, assocGet pa.indices justifiedRoot = some ji ∧
      pa.nodes.get? ji = some jn ∧
      pa.nodes.get? (jn.bestDescendant.getD ji) = some bn ∧
      h = bn.root ∧ nodeIsViableForHead pa bn = true := by
  unfold findHead at hok
  split at hok
  · cases hok
  next ji hji =>
  split at hok
  · cases hok
  next jn hjn =>
  dsimp only at hok
  split at hok
  · cases hok
  next bn hbn =>
  split at hok
  · cases hok
  next hv =>
  simp at hv
  refine ⟨ji, jn, bn, hji, hjn, hbn, ?_, hv⟩
  simp only [Except.ok.injEq] at hok
  exact hok.symm

/-- C1: whenever `ProtoArray::find_head` — and hence the score-changing
`find_head` wrapper used by `get_head` — returns `Ok(root)`, the returned
root belongs to the justified node's best descendant (or the justified
node itself when it has none) and that node satisfies the viability
predicate `(justified_epoch matches or store justified epoch is 0) and
(finalized_epoch matches or store finalized epoch is 0)`; when that node
is not viable, `find_head` returns the `InvalidBestNode` error, never a
root. -/
theorem claim_C1_find_head_viable :
    (∀ (pa : ProtoArray) (justifiedRoot h : Nat),
      findHead pa justifiedRoot = .ok h →
      ∃ ji jn bn, assocGet pa.indices justifiedRoot = some ji ∧
        pa.nodes.get? ji = some jn ∧
        pa.nodes.get? (jn.bestDescendant.getD ji) = some bn ∧
        h = bn.root ∧
        (bn.justifiedEpoch = pa.justifiedEpoch ∨ pa.justifiedEpoch = 0) ∧
        (bn.finalizedEpoch = pa.finalizedEpoch ∨ pa.finalizedEpoch = 0)) ∧
    (∀ (pa : ProtoArray) (justifiedRoot ji : Nat) (jn bn : ProtoNode),
      assocGet pa.indices justifiedRoot = some ji →
      pa.nodes.get? ji = some jn →
      pa.nodes.get? (jn.bestDescendant.getD ji) = some bn →
      nodeIsViableForHead pa bn = false →
      findHead pa justifiedRoot =
        .error (.invalidBestNode pa.justifiedEpoch pa.finalizedEpoch
          jn.justifiedEpoch jn.finalizedEpoch)) ∧
    (∀ (fc : ProtoArrayForkChoice) (je jr fe : Nat) (bal : List Nat)
        (h : Nat) (fc' : ProtoArrayForkChoice),
      fcFindHead fc je jr fe bal = .ok (h, fc') →
      ∃ ji jn bn, assocGet fc'.protoArray.indices jr = some ji ∧
        fc'.protoArray.nodes.get? ji = some jn ∧
        fc'.protoArray.nodes.get? (jn.bestDescendant.getD ji) = some bn ∧
        h = bn.root ∧
        (bn.justifiedEpoch = fc'.protoArray.justifiedEpoch ∨
          fc'.protoArray.justifiedEpoch = 0) ∧
        (bn.finalizedEpoch = fc'.protoArray.finalizedEpoch ∨
          fc'.protoArray.finalizedEpoch = 0)) := by
  refine ⟨?_, ?_, ?_⟩
  · intro pa justifiedRoot h hok
    obtain ⟨ji, jn, bn, h1, h2, h3, h4, h5⟩ := findHead_ok_shape pa justifiedRoot h hok
    exact ⟨ji, jn, bn, h1, h2, h3, h4,
      (nodeIsViableForHead_eq_true_iff pa bn).mp h5⟩
  · intro pa justifiedRoot ji jn bn hji hjn hbn hv
    simp only [findHead, hji, hjn, hbn, hv, Bool.not_false, if_true]
  · intro fc je jr fe bal h fc' hok
    unfold fcFindHead at hok
    rcases hcd : computeDeltas fc.protoArray.indices fc.votes fc.balances bal with ⟨ds, vs⟩
    rw [hcd] at hok
    dsimp only at hok
    split at hok
    · cases hok
    next pa' hsc =>
    split at hok
    · cases hok
    next headRoot hfh =>
    simp only [Except.ok.injEq, Prod.mk.injEq] at hok
    obtain ⟨hh, hfc⟩ := hok
    obtain ⟨ji, jn, bn, h1, h2, h3, h4, h5⟩ := findHead_ok_shape pa' jr headRoot hfh
    subst hh
    have hpa : fc'.protoArray = pa' := by rw [← hfc]
    rw [hpa]
    exact ⟨ji, jn, bn, h1, h2, h3, h4,
      (nodeIsViableForHead_eq_true_iff pa' bn).mp h5⟩

/-- Witness for C1 at the one-node genesis array. -/
theorem claim_C1_find_head_viable_witness :
    ∃ ji jn bn, assocGet exGenesis.indices 1 = some ji ∧
      exGenesis.nodes.get? ji = some jn ∧
      exGenesis.nodes.get? (jn.bestDescendant.getD ji) = some bn ∧
      (1 : Nat) = bn.root ∧
      (bn.justifiedEpoch = exGenesis.justifiedEpoch ∨ exGenesis.justifiedEpoch = 0) ∧
      (bn.finalizedEpoch = exGenesis.finalizedEpoch ∨ exGenesis.finalizedEpoch = 0) :=
  claim_C1_find_head_viable.1 exGenesis 1 1 rfl

/-! ## C10: `apply_score_changes` skips the zero-hash node -/

/-- `samePayload` is reflexive. -/
theorem samePayload_refl (n : ProtoNode) : samePayload n n := by
  unfold samePayload
  exact ⟨rfl, rfl, rfl, rfl, rfl, rfl⟩

/-- `samePayload` composes. -/
theorem samePayload_trans {n n' n'' : ProtoNode}
    (h₁ : samePayload n n') (h₂ : samePayload n' n'') : samePayload n n'' := by
  obtain ⟨a₁, b₁, c₁, d₁, e₁, f₁⟩ := h₁
  obtain ⟨a₂, b₂, c₂, d₂, e₂, f₂⟩ := h₂
  exact ⟨a₂.trans a₁, b₂.trans b₁, c₂.trans c₁, d₂.trans d₁, e₂.trans e₁, f₂.trans f₁⟩

/-- A successful best-child update writes exactly the parent's two
best-pointer fields. -/
theorem maybeUpdate_ok_shape (pa : ProtoArray) (p c : Nat) (pa' : ProtoArray)
    (h : maybeUpdateBestChildAndDescendant pa p c = .ok pa') :
    ∃ parent nbc nbd, pa.nodes.get? p = some parent ∧
      pa'.nodes = pa.nodes.set p { parent with bestChild := nbc, bestDescendant := nbd } ∧
      pa'.pruneThreshold = pa.pruneThreshold ∧ pa'.justifiedEpoch = pa.justifiedEpoch ∧
      pa'.finalizedEpoch = pa.finalizedEpoch ∧ pa'.indices = pa.indices := by
  unfold maybeUpdateBestChildAndDescendant at h
  split at h
  · cases h
  next child hc =>
  split at h
  · cases h
  next parent hp =>
  split at h
  · cases h
  next clvh hcl =>
  split at h
  · cases h
  next nbc nbd hdec =>
  simp only [Except.ok.injEq] at h
  exact ⟨parent, nbc, nbd, hp, by rw [← h], by rw [← h], by rw [← h], by rw [← h],
    by rw [← h]⟩

/-- A successful best-child update preserves the payload of every node. -/
theorem maybeUpdate_get_payload (pa : ProtoArray) (p c : Nat) (pa' : ProtoArray)
    (i : Nat) (n : ProtoNode)
    (h : maybeUpdateBestChildAndDescendant pa p c = .ok pa')
    (hi : pa.nodes.get? i = some n) :
    ∃ n', pa'.nodes.get? i = some n' ∧ samePayload n n' := by
  obtain ⟨parent, nbc, nbd, hp, hnodes, -, -, -, -⟩ := maybeUpdate_ok_shape pa p c pa' h
  by_cases hip : p = i
  · subst hip
    rw [hp] at hi
    injection hi with hn
    subst hn
    have hlt : p < pa.nodes.length := by
      rw [List.get?_eq_getElem?] at hp
      exact (List.getElem?_eq_some.mp hp).1
    refine ⟨{ parent with bestChild := nbc, bestDescendant := nbd }, ?_, ?_⟩
    · rw [hnodes, List.get?_eq_getElem?, List.getElem?_set_self hlt]
    · exact ⟨rfl, rfl, rfl, rfl, rfl, rfl⟩
  · refine ⟨n, ?_, samePayload_refl n⟩
    rw [hnodes, List.get?_eq_getElem?, List.getElem?_set_ne hip, ← List.get?_eq_getElem?]
    exact hi

/-- Through any run of the score-change loop, a zero-hash node's payload
is untouched (only its best pointers may be rewritten by its children). -/
theorem applyScoreChangesLoop_zero_payload (idxs : List Nat) :
    ∀ (pa : ProtoArray) (deltas : List Int) (pa' : ProtoArray) (deltas' : List Int)
      (i : Nat) (n : ProtoNode),
      applyScoreChangesLoop pa deltas idxs = .ok (pa', deltas') →
      pa.nodes.get? i = some n → n.root = ZERO_HASH →
      ∃ n', pa'.nodes.get? i = some n' ∧ samePayload n n' := by
  induction idxs with
  | nil =>
    intro pa deltas pa' deltas' i n h hi hz
    simp only [applyScoreChangesLoop, Except.ok.injEq, Prod.mk.injEq] at h
    obtain ⟨h1, _⟩ := h
    exact ⟨n, by rw [← h1]; exact hi, samePayload_refl n⟩
  | cons j rest ih =>
    intro pa deltas pa' deltas' i n h hi hz
    rw [applyScoreChangesLoop] at h
    split at h
    · cases h
    next node hnode =>
    split at h
    · exact ih pa deltas pa' deltas' i n h hi hz
    next hroot =>
    have hij : j ≠ i := by
      rintro rfl
      rw [hnode] at hi
      injection hi with e
      rw [e, hz] at hroot
      simp at hroot
    split at h
    · cases h
    next nodeDelta hdelta =>
    dsimp only at h
    split at h
    · cases h
    next w hw =>
    have hi₁ :
        (pa.nodes.set j { node with weight := w }).get? i = some n := by
      rw [List.get?_eq_getElem?, List.getElem?_set_ne hij, ← List.get?_eq_getElem?]
      exact hi
    split at h
    · exact ih _ deltas pa' deltas' i n h hi₁ hz
    next parentIndex hparent =>
    split at h
    · cases h
    next parentDelta hpd =>
    split at h
    · cases h
    next pa₂ hmu =>
    obtain ⟨n'', hi₂, hp₂⟩ := maybeUpdate_get_payload _ parentIndex j pa₂ i n hmu hi₁
    have hz'' : n''.root = ZERO_HASH := by rw [hp₂.2.1, hz]
    obtain ⟨n', hi', hp'⟩ := ih pa₂ _ pa' deltas' i n'' h hi₂ hz''
    exact ⟨n', hi', samePayload_trans hp₂ hp'⟩

/-- C10: a successful `apply_score_changes` leaves the zero-hash (genesis
alias) node entirely alone: its weight — regardless of the delta supplied
at its index — and every other field except the best pointers are
unchanged; moreover the loop step at the zero-hash node is the identity
on both the node array and the delta vector, so no delta is
back-propagated from it to any parent. -/
theorem claim_C10_zero_hash_skipped :
    (∀ (pa : ProtoArray) (deltas : List Int) (je fe : Nat) (pa' : ProtoArray)
        (i : Nat) (n : ProtoNode),
      pa.nodes.get? i = some n → n.root = ZERO_HASH →
      applyScoreChanges pa deltas je fe = .ok pa' →
      ∃ n', pa'.nodes.get? i = some n' ∧
        n'.weight = n.weight ∧ n'.slot = n.slot ∧ n'.root = n.root ∧
        n'.parent = n.parent ∧ n'.justifiedEpoch = n.justifiedEpoch ∧
        n'.finalizedEpoch = n.finalizedEpoch) ∧
    (∀ (pa : ProtoArray) (deltas : List Int) (i : Nat) (n : ProtoNode),
      pa.nodes.get? i = some n → n.root = ZERO_HASH →
      applyScoreChangesLoop pa deltas [i] = .ok (pa, deltas)) := by
  constructor
  · intro pa deltas je fe pa' i n hi hz h
    unfold applyScoreChanges at h
    split at h
    · cases h
    next hlen =>
    dsimp only at h
    generalize hpaE : (if je ≠ pa.justifiedEpoch ∨ fe ≠ pa.finalizedEpoch then
      { pa with justifiedEpoch := je, finalizedEpoch := fe } else pa) = paE at h
    have hnodesE : paE.nodes = pa.nodes := by
      rw [← hpaE]
      split <;> rfl
    rcases hloop : applyScoreChangesLoop paE deltas
        (List.range paE.nodes.length).reverse with _ | ⟨paF, deltasF⟩
    · rw [hloop] at h
      simp [Except.map] at h
    · rw [hloop] at h
      simp only [Except.map, Except.ok.injEq] at h
      subst h
      have hi' : paE.nodes.get? i = some n := by
        rw [hnodesE]
        exact hi
      obtain ⟨n', hgot, hp⟩ :=
        applyScoreChangesLoop_zero_payload _ _ deltas _ deltasF i n hloop hi' hz
      obtain ⟨a, b, c, d, e, f⟩ := hp
      exact ⟨n', hgot, f, a, b, c, d, e⟩
  · intro pa deltas i n hi hz
    rw [List.get?_eq_getElem?] at hi
    simp [applyScoreChangesLoop, hi, hz]

/-- Witness for C10 at a one-node array holding the zero-hash genesis
alias, with a nonzero delta supplied at its index. -/
theorem claim_C10_zero_hash_skipped_witness :
    (∃ n', exZeroPA.nodes.get? 0 = some n' ∧
      n'.weight = (0 : Nat) ∧ n'.slot = (0 : Nat) ∧ n'.root = (0 : Nat) ∧
      n'.parent = (none : Option Nat) ∧ n'.justifiedEpoch = (0 : Nat) ∧
      n'.finalizedEpoch = (0 : Nat)) ∧
    applyScoreChangesLoop exZeroPA [5] [0] = .ok (exZeroPA, [5]) :=
  ⟨claim_C10_zero_hash_skipped.1 exZeroPA [5] 0 0 exZeroPA 0
      ⟨0, 0, none, 0, 0, 0, none, none⟩ rfl rfl rfl,
    claim_C10_zero_hash_skipped.2 exZeroPA [5] 0
      ⟨0, 0, none, 0, 0, 0, none, none⟩ rfl rfl⟩

/-! ## C4: equal-weight ties break by root, heavier node otherwise -/

/-- C4: when the examined child is not the parent's current best child and
both lead to viable heads, the child takes over exactly when it is
strictly heavier, or has equal weight and a root at least the incumbent's
(root-descending tie-break); and in the concrete two-sibling scenario with
equal 5-vote weights, the head is the branch with the greater root
(root 3) regardless of insertion order. -/
theorem claim_C4_equal_weight_tiebreak (pa : ProtoArray)
    (parentIndex childIndex bestChildIndex : Nat)
    (child parent bestChild : ProtoNode)
    (hc : pa.nodes.get? childIndex = some child)
    (hp : pa.nodes.get? parentIndex = some parent)
    (hbc : parent.bestChild = some bestChildIndex)
    (hne : bestChildIndex ≠ childIndex)
    (hb : pa.nodes.get? bestChildIndex = some bestChild)
    (hclv : nodeLeadsToViableHead pa child = .ok true)
    (hblv : nodeLeadsToViableHead pa bestChild = .ok true) :
    (∃ pa', maybeUpdateBestChildAndDescendant pa parentIndex childIndex = .ok pa' ∧
      ∃ parent', pa'.nodes.get? parentIndex = some parent' ∧
        parent'.bestChild =
          (if child.weight = bestChild.weight then
            (if bestChild.root ≤ child.root then some childIndex else some bestChildIndex)
          else
            (if bestChild.weight < child.weight then some childIndex else some bestChildIndex))) ∧
    ((applyScoreChanges exForkA [0, 5, 5] 0 0).isOk = true ∧
      findHead (paOfResult (applyScoreChanges exForkA [0, 5, 5] 0 0)) 1 = .ok 3) ∧
    ((applyScoreChanges exForkB [0, 5, 5] 0 0).isOk = true ∧
      findHead (paOfResult (applyScoreChanges exForkB [0, 5, 5] 0 0)) 1 = .ok 3) := by
  refine ⟨?_, ⟨rfl, rfl⟩, ⟨rfl, rfl⟩⟩
  have hne' : (bestChildIndex == childIndex) = false := by
    simp [hne]
  have hplt : parentIndex < pa.nodes.length := by
    have hp' := hp
    rw [List.get?_eq_getElem?] at hp'
    exact (List.getElem?_eq_some.mp hp').1
  have hc' : pa.nodes[childIndex]? = some child := by
    rw [← List.get?_eq_getElem?]
    exact hc
  have hp' : pa.nodes[parentIndex]? = some parent := by
    rw [← List.get?_eq_getElem?]
    exact hp
  have hb' : pa.nodes[bestChildIndex]? = some bestChild := by
    rw [← List.get?_eq_getElem?]
    exact hb
  by_cases hw : child.weight = bestChild.weight
  · by_cases hr : bestChild.root ≤ child.root
    · have hstep : maybeUpdateBestChildAndDescendant pa parentIndex childIndex =
          .ok { pa with nodes := pa.nodes.set parentIndex { parent with bestChild := some childIndex, bestDescendant := child.bestDescendant.elim (some childIndex) some } } := by
        simp [maybeUpdateBestChildAndDescendant, bestChildDecision, hc', hp', hclv,
          hblv, hb', hbc, hne, hw, hr, ge_iff_le]
      refine ⟨_, hstep, { parent with bestChild := some childIndex, bestDescendant := child.bestDescendant.elim (some childIndex) some }, ?_, ?_⟩
      · rw [List.get?_eq_getElem?, List.getElem?_set_self hplt]
      · rw [if_pos hw, if_pos hr]
    · have hstep : maybeUpdateBestChildAndDescendant pa parentIndex childIndex =
          .ok { pa with nodes := pa.nodes.set parentIndex { parent with bestChild := parent.bestChild, bestDescendant := parent.bestDescendant } } := by
        simp [maybeUpdateBestChildAndDescendant, bestChildDecision, hc', hp', hclv,
          hblv, hb', hbc, hne, hw, hr, ge_iff_le]
      refine ⟨_, hstep, { parent with bestChild := parent.bestChild, bestDescendant := parent.bestDescendant }, ?_, ?_⟩
      · rw [List.get?_eq_getElem?, List.getElem?_set_self hplt]
      · rw [if_pos hw, if_neg hr, hbc]
  · by_cases hww : bestChild.weight ≤ child.weight
    · have hstep : maybeUpdateBestChildAndDescendant pa parentIndex childIndex =
          .ok { pa with nodes := pa.nodes.set parentIndex { parent with bestChild := some childIndex, bestDescendant := child.bestDescendant.elim (some childIndex) some } } := by
        simp [maybeUpdateBestChildAndDescendant, bestChildDecision, hc', hp', hclv,
          hblv, hb', hbc, hne, hw, hww, ge_iff_le]
      refine ⟨_, hstep, { parent with bestChild := some childIndex, bestDescendant := child.bestDescendant.elim (some childIndex) some }, ?_, ?_⟩
      · rw [List.get?_eq_getElem?, List.getElem?_set_self hplt]
      · rw [if_neg hw, if_pos (lt_of_le_of_ne hww (fun e => hw e.symm))]
    · have hww' : ¬ child.weight ≥ bestChild.weight := hww
      have hstep : maybeUpdateBestChildAndDescendant pa parentIndex childIndex =
          .ok { pa with nodes := pa.nodes.set parentIndex { parent with bestChild := parent.bestChild, bestDescendant := parent.bestDescendant } } := by
        simp [maybeUpdateBestChildAndDescendant, bestChildDecision, hc', hp', hclv,
          hblv, hb', hbc, hne, hw, hww', ge_iff_le]
      refine ⟨_, hstep, { parent with bestChild := parent.bestChild, bestDescendant := parent.bestDescendant }, ?_, ?_⟩
      · rw [List.get?_eq_getElem?, List.getElem?_set_self hplt]
      · have : ¬ bestChild.weight < child.weight := fun hlt => hww (le_of_lt hlt)
        rw [if_neg hw, if_neg this, hbc]

/-- Witness for C4 at the two-sibling fork: parent at index 0 whose best
child is index 1 (root 3), examined child index 2 (root 2), equal zero
weights — the incumbent with the greater root stays. -/
theorem claim_C4_equal_weight_tiebreak_witness :
    (∃ pa', maybeUpdateBestChildAndDescendant exForkA 0 2 = .ok pa' ∧
      ∃ parent', pa'.nodes.get? 0 = some parent' ∧
        parent'.bestChild =
          (if (0 : Nat) = (0 : Nat) then
            (if (3 : Nat) ≤ (2 : Nat) then some 2 else some 1)
          else
            (if (0 : Nat) < (0 : Nat) then some 2 else some 1))) ∧
    ((applyScoreChanges exForkA [0, 5, 5] 0 0).isOk = true ∧
      findHead (paOfResult (applyScoreChanges exForkA [0, 5, 5] 0 0)) 1 = .ok 3) ∧
    ((applyScoreChanges exForkB [0, 5, 5] 0 0).isOk = true ∧
      findHead (paOfResult (applyScoreChanges exForkB [0, 5, 5] 0 0)) 1 = .ok 3) :=
  claim_C4_equal_weight_tiebreak exForkA 0 2 1
    ⟨1, 2, some 0, 0, 0, 0, none, none⟩
    ⟨0, 1, none, 0, 0, 0, some 1, some 1⟩
    ⟨1, 3, some 0, 0, 0, 0, none, none⟩
    rfl rfl rfl (by decide) rfl rfl rfl

/-! ## C2: `on_tick` bounds -/

/-- Counterexample to C2 as stated: with the store at slot 5, a tick to
slot 3 — `time` not ≥ the previously recorded slot — does not fail with
`InconsistentOnTick`; it succeeds and moves the current slot backwards
to 3. -/
theorem claim_C2_counterexample :
    onTick exStore5 3 = (.ok (), { exStore5 with currentSlot := 3 }) ∧
    (3 : Nat) < exStore5.currentSlot := by
  constructor
  · rfl
  · show (3 : Nat) < 5
    omega

/-- C2 amended: `on_tick(store, time)` fails — with `InconsistentOnTick`,
leaving the store unchanged — exactly when `time` exceeds the previous
slot plus one; there is no lower bound, so an earlier `time` is accepted
and moves `current_slot` backwards.  On success it sets `current_slot =
time` and promotes the best-justified checkpoint to justified exactly when
`time` strictly advanced the slot into the first slot of an epoch and
`best_justified.epoch > justified.epoch`. -/
theorem claim_C2_on_tick_amended (store : FCStore) (time : Nat) :
    (time > store.currentSlot + 1 →
      onTick store time = (.error (.inconsistentOnTick store.currentSlot time), store)) ∧
    (time ≤ store.currentSlot + 1 →
      onTick store time = (.ok (), { store with currentSlot := time, justifiedCheckpoint := if time > store.currentSlot ∧ slotsSinceEpochStart time = 0 ∧ store.bestJustifiedCheckpoint.epoch > store.justifiedCheckpoint.epoch then store.bestJustifiedCheckpoint else store.justifiedCheckpoint })) := by
  constructor
  · intro h
    unfold onTick
    rw [if_pos h]
  · intro h
    unfold onTick
    rw [if_neg (by omega : ¬ time > store.currentSlot + 1)]
    dsimp only
    by_cases h1 : time > store.currentSlot ∧ slotsSinceEpochStart time = 0
    · rw [if_neg (by simpa using h1)]
      by_cases h2 : store.bestJustifiedCheckpoint.epoch > store.justifiedCheckpoint.epoch
      · rw [if_pos h2, if_pos ⟨h1.1, h1.2, h2⟩]
      · rw [if_neg h2, if_neg (by tauto)]
    · rw [if_pos (by simpa using h1)]
      rw [if_neg (by tauto)]

/-- Witness for the amended C2: at slot 5, a tick to 9 is rejected while a
tick to 3 succeeds. -/
theorem claim_C2_on_tick_amended_witness :
    onTick exStore5 9 = (.error (.inconsistentOnTick exStore5.currentSlot 9), exStore5) ∧
    onTick exStore5 3 = (.ok (), { exStore5 with currentSlot := 3, justifiedCheckpoint := if 3 > exStore5.currentSlot ∧ slotsSinceEpochStart 3 = 0 ∧ exStore5.bestJustifiedCheckpoint.epoch > exStore5.justifiedCheckpoint.epoch then exStore5.bestJustifiedCheckpoint else exStore5.justifiedCheckpoint }) :=
  ⟨(claim_C2_on_tick_amended exStore5 9).1 (by decide),
   (claim_C2_on_tick_amended exStore5 3).2 (by decide)⟩

/-! ## C5: queued attestations are only partially dequeued -/

/-- C5 evaluated at the failing input: two attestations queued at slot 5
(slots 10 and 6, both ≥ the current slot as the queuing rule requires);
after time advances to slot 8, `dequeue_attestations` — which `split_off`s
only the prefix before the first entry with `slot ≥ current_slot` —
removes nothing, leaving the slot-6 attestation (6 < 8) in the queue
unapplied, contrary to the claim (and to the function's own doc
comment). -/
theorem claim_C5_stale_attestation_remains :
    dequeueAttestations 8 [⟨10, [1], 1, 0⟩, ⟨6, [2], 1, 0⟩] =
      ([], [⟨10, [1], 1, 0⟩, ⟨6, [2], 1, 0⟩]) ∧
    exFC2.fcStore.currentSlot = 5 ∧
    exFC2.queuedAttestations = [⟨10, [1], 1, 0⟩, ⟨6, [2], 1, 0⟩] ∧
    exFC3.fcStore.currentSlot = 8 ∧
    exFC3.queuedAttestations = [⟨10, [1], 1, 0⟩, ⟨6, [2], 1, 0⟩] ∧
    (6 : Nat) < 8 := by
  decide

/-! ## C3: finalized-checkpoint monotonicity -/

/-- `on_tick` never touches the finalized checkpoint. -/
theorem onTick_finalized (store : FCStore) (time : Nat) :
    ((onTick store time).2).finalizedCheckpoint = store.finalizedCheckpoint := by
  simp only [onTick]
  split_ifs <;> rfl

/-- The `update_time` tick loop never touches the finalized checkpoint. -/
theorem updateTimeGo_finalized (currentSlot : Nat) (fuel : Nat) :
    ∀ fc : ForkChoiceState,
      ((updateTimeGo currentSlot fuel fc).2).fcStore.finalizedCheckpoint =
        fc.fcStore.finalizedCheckpoint := by
  induction fuel with
  | zero => intro fc; rfl
  | succ n ih =>
    intro fc
    unfold updateTimeGo
    split
    · rcases ht : onTick fc.fcStore (fc.fcStore.currentSlot + 1) with ⟨r, s⟩
      have hs : s.finalizedCheckpoint = fc.fcStore.finalizedCheckpoint := by
        have := onTick_finalized fc.fcStore (fc.fcStore.currentSlot + 1)
        rw [ht] at this
        exact this
      cases r with
      | error e => simp only [ht]; exact hs
      | ok u => simp only [ht]; rw [ih]; exact hs
    · rfl

/-- Draining the attestation queue never touches the store. -/
theorem processAttestationQueue_fcStore (fc : ForkChoiceState) :
    (processAttestationQueue fc).fcStore = fc.fcStore := rfl

/-- `update_time` never touches the finalized checkpoint. -/
theorem updateTime_finalized (fc : ForkChoiceState) (currentSlot : Nat) :
    ((updateTime fc currentSlot).2).fcStore.finalizedCheckpoint =
      fc.fcStore.finalizedCheckpoint := by
  unfold updateTime
  rcases hg : updateTimeGo currentSlot (currentSlot - fc.fcStore.currentSlot) fc
      with ⟨r, fc'⟩
  have h := updateTimeGo_finalized currentSlot (currentSlot - fc.fcStore.currentSlot) fc
  rw [hg] at h
  cases r with
  | error e => exact h
  | ok u =>
    dsimp only
    rw [processAttestationQueue_fcStore]
    exact h

/-- `should_update_justified_checkpoint` never touches the finalized
checkpoint. -/
theorem shouldUpdateJustified_finalized (anc : Nat → Nat → Nat)
    (fc : ForkChoiceState) (currentSlot : Nat) (state : BeaconStateView) :
    ((shouldUpdateJustifiedCheckpoint anc fc currentSlot state).2).fcStore.finalizedCheckpoint =
      fc.fcStore.finalizedCheckpoint := by
  unfold shouldUpdateJustifiedCheckpoint
  rcases hut : updateTime fc currentSlot with ⟨r, fc₁⟩
  have h1 := updateTime_finalized fc currentSlot
  rw [hut] at h1
  cases r with
  | error e => exact h1
  | ok u =>
    dsimp only
    split
    · exact h1
    · split
      · exact h1
      · split <;> exact h1

/-- The justified-checkpoint block of `on_block` never touches the
finalized checkpoint. -/
theorem onBlockJustifiedStep_finalized (anc : Nat → Nat → Nat)
    (fc : ForkChoiceState) (currentSlot : Nat) (state : BeaconStateView) :
    ((onBlockJustifiedStep anc fc currentSlot state).2).fcStore.finalizedCheckpoint =
      fc.fcStore.finalizedCheckpoint := by
  unfold onBlockJustifiedStep
  split
  · rcases hs : shouldUpdateJustifiedCheckpoint anc
        (if state.currentJustifiedCheckpoint.epoch > fc.fcStore.bestJustifiedCheckpoint.epoch
          then setBestJustifiedCheckpoint fc state else fc) currentSlot state with ⟨r, fc₁⟩
    have h1 := shouldUpdateJustified_finalized anc
      (if state.currentJustifiedCheckpoint.epoch > fc.fcStore.bestJustifiedCheckpoint.epoch
        then setBestJustifiedCheckpoint fc state else fc) currentSlot state
    rw [hs] at h1
    have h2 : ((if state.currentJustifiedCheckpoint.epoch >
        fc.fcStore.bestJustifiedCheckpoint.epoch
        then setBestJustifiedCheckpoint fc state else fc)).fcStore.finalizedCheckpoint =
        fc.fcStore.finalizedCheckpoint := by
      split <;> rfl
    rw [h2] at h1
    cases r with
    | error e => simpa only [hs] using h1
    | ok b =>
      simp only [hs]
      split <;> exact h1
  · rfl

/-- The finalized-checkpoint block of `on_block` leaves the checkpoint
unchanged or installs the state's strictly newer one. -/
theorem onBlockFinalizedStep_finalized (anc : Nat → Nat → Nat)
    (fc : ForkChoiceState) (state : BeaconStateView) :
    ((onBlockFinalizedStep anc fc state).2).fcStore.finalizedCheckpoint =
        fc.fcStore.finalizedCheckpoint ∨
      (state.finalizedCheckpoint.epoch > fc.fcStore.finalizedCheckpoint.epoch ∧
        ((onBlockFinalizedStep anc fc state).2).fcStore.finalizedCheckpoint =
          state.finalizedCheckpoint) := by
  unfold onBlockFinalizedStep
  split
  next hgt =>
    refine Or.inr ⟨hgt, ?_⟩
    dsimp only
    split
    · rfl
    · split <;> first | rfl | (split <;> rfl)
  · exact Or.inl rfl

/-- The proto-array registration of `on_block` never touches the store. -/
theorem onBlockRegister_fcStore (fc : ForkChoiceState) (block : BeaconBlockView)
    (blockRoot : Nat) (state : BeaconStateView) :
    ((onBlockRegister fc block blockRoot state).2).fcStore = fc.fcStore := by
  unfold onBlockRegister
  dsimp only
  split
  · rfl
  · split <;> rfl

/-- `on_block` keeps the finalized checkpoint unless the block's state
carries a strictly newer one, which is then installed. -/
theorem onBlock_finalized (anc : Nat → Nat → Nat) (fc : ForkChoiceState)
    (currentSlot : Nat) (block : BeaconBlockView) (blockRoot : Nat)
    (state : BeaconStateView) :
    ((onBlock anc fc currentSlot block blockRoot state).2).fcStore.finalizedCheckpoint =
        fc.fcStore.finalizedCheckpoint ∨
      (state.finalizedCheckpoint.epoch > fc.fcStore.finalizedCheckpoint.epoch ∧
        ((onBlock anc fc currentSlot block blockRoot state).2).fcStore.finalizedCheckpoint =
          state.finalizedCheckpoint) := by
  unfold onBlock
  rcases hut : updateTime fc currentSlot with ⟨r, fc₁⟩
  have h1 := updateTime_finalized fc currentSlot
  rw [hut] at h1
  cases r with
  | error e => exact Or.inl h1
  | ok u =>
    dsimp only
    split
    · exact Or.inl h1
    · rcases hjs : onBlockJustifiedStep anc fc₁ fc₁.fcStore.currentSlot state with ⟨r₂, fc₂⟩
      have h2 := onBlockJustifiedStep_finalized anc fc₁ fc₁.fcStore.currentSlot state
      rw [hjs] at h2
      cases r₂ with
      | error e => exact Or.inl (h2.trans h1)
      | ok u₂ =>
        dsimp only
        rcases hfs : onBlockFinalizedStep anc fc₂ state with ⟨r₃, fc₃⟩
        have h3 := onBlockFinalizedStep_finalized anc fc₂ state
        rw [hfs] at h3
        have h21 : fc₂.fcStore.finalizedCheckpoint = fc.fcStore.finalizedCheckpoint :=
          h2.trans h1
        cases r₃ with
        | error e =>
          dsimp only
          rcases h3 with h3 | ⟨h3a, h3b⟩
          · exact Or.inl (h3.trans h21)
          · rw [h21] at h3a
            exact Or.inr ⟨h3a, h3b⟩
        | ok u₃ =>
          dsimp only
          have h4 := onBlockRegister_fcStore fc₃ block blockRoot state
          rcases h3 with h3 | ⟨h3a, h3b⟩
          · exact Or.inl (by rw [h4]; exact h3.trans h21)
          · rw [h21] at h3a
            exact Or.inr ⟨h3a, by rw [h4]; exact h3b⟩

/-- `on_attestation` never touches the finalized checkpoint. -/
theorem onAttestation_finalized (fc : ForkChoiceState) (currentSlot : Nat)
    (a : IndexedAttestationView) :
    ((onAttestation fc currentSlot a).2).fcStore.finalizedCheckpoint =
      fc.fcStore.finalizedCheckpoint := by
  unfold onAttestation
  rcases hut : updateTime fc currentSlot with ⟨r, fc₁⟩
  have h1 := updateTime_finalized fc currentSlot
  rw [hut] at h1
  cases r with
  | error e => exact h1
  | ok u =>
    dsimp only
    split
    · exact h1
    · split
      · exact h1
      · split <;> exact h1

/-- `get_head` never touches the finalized checkpoint. -/
theorem getHead_finalized (fc : ForkChoiceState) (currentSlot : Nat) :
    ((getHead fc currentSlot).2).fcStore.finalizedCheckpoint =
      fc.fcStore.finalizedCheckpoint := by
  unfold getHead
  rcases hut : updateTime fc currentSlot with ⟨r, fc₁⟩
  have h1 := updateTime_finalized fc currentSlot
  rw [hut] at h1
  cases r with
  | error e => exact h1
  | ok u =>
    dsimp only
    split <;> exact h1

/-- `prune` never touches the store. -/
theorem fcPrune_fcStore (fc : ForkChoiceState) :
    ((fcPrune fc).2).fcStore = fc.fcStore := by
  simp only [fcPrune]
  rcases hmp : maybePrune fc.protoArray.protoArray fc.protoArray.protoArray.finalizedEpoch
      fc.fcStore.finalizedCheckpoint.root with ⟨r, pa'⟩
  cases r <;> rfl

/-- One step of the fork-choice state machine never decreases the stored
finalized epoch. -/
theorem fcStep_finalized_mono (anc : Nat → Nat → Nat) (fc : ForkChoiceState)
    (input : FCInput) :
    fc.fcStore.finalizedCheckpoint.epoch ≤
      (fcStep anc fc input).fcStore.finalizedCheckpoint.epoch := by
  cases input with
  | block currentSlot b blockRoot state =>
    rcases onBlock_finalized anc fc currentSlot b blockRoot state with h | ⟨h1, h2⟩
    · exact le_of_eq (by rw [fcStep, h])
    · rw [fcStep, h2]
      exact le_of_lt h1
  | attestation currentSlot a =>
    exact le_of_eq (by rw [fcStep, onAttestation_finalized])
  | head currentSlot =>
    exact le_of_eq (by rw [fcStep, getHead_finalized])
  | advance currentSlot =>
    exact le_of_eq (by rw [fcStep, updateTime_finalized])
  | prune =>
    exact le_of_eq (by rw [fcStep, fcPrune_fcStore])

/-- Across any input sequence the stored finalized epoch never
decreases. -/
theorem fcRun_finalized_mono (anc : Nat → Nat → Nat) (inputs : List FCInput) :
    ∀ fc : ForkChoiceState,
      fc.fcStore.finalizedCheckpoint.epoch ≤
        (fcRun anc fc inputs).fcStore.finalizedCheckpoint.epoch := by
  induction inputs with
  | nil => intro fc; exact le_refl _
  | cons input rest ih =>
    intro fc
    exact le_trans (fcStep_finalized_mono anc fc input) (ih (fcStep anc fc input))

/-- C3: the stored finalized checkpoint is overwritten by `on_block` only
when the new state's finalized epoch is strictly greater;
`ProtoArray::maybe_prune` called with a finalized epoch lower than the
recorded one fails with `RevertedFinalizedEpoch` leaving the array —
nodes, indices and finalized epoch — unchanged; and across any sequence
of fork-choice inputs the stored finalized epoch never decreases. -/
theorem claim_C3_finalized_monotone :
    (∀ (anc : Nat → Nat → Nat) (fc : ForkChoiceState) (currentSlot : Nat)
        (block : BeaconBlockView) (blockRoot : Nat) (state : BeaconStateView),
      ((onBlock anc fc currentSlot block blockRoot state).2).fcStore.finalizedCheckpoint =
          fc.fcStore.finalizedCheckpoint ∨
        (state.finalizedCheckpoint.epoch > fc.fcStore.finalizedCheckpoint.epoch ∧
          ((onBlock anc fc currentSlot block blockRoot state).2).fcStore.finalizedCheckpoint =
            state.finalizedCheckpoint)) ∧
    (∀ (pa : ProtoArray) (finalizedEpoch finalizedRoot : Nat),
      finalizedEpoch < pa.finalizedEpoch →
      maybePrune pa finalizedEpoch finalizedRoot =
        (.error (.revertedFinalizedEpoch pa.finalizedEpoch finalizedEpoch), pa)) ∧
    (∀ (anc : Nat → Nat → Nat) (fc : ForkChoiceState) (inputs : List FCInput),
      fc.fcStore.finalizedCheckpoint.epoch ≤
        (fcRun anc fc inputs).fcStore.finalizedCheckpoint.epoch) := by
  refine ⟨onBlock_finalized, ?_, fun anc fc inputs => fcRun_finalized_mono anc inputs fc⟩
  intro pa finalizedEpoch finalizedRoot h
  unfold maybePrune
  rw [if_pos h]

/-- Witness for C3: the reverted-finalization branch at a concrete array
with finalized epoch 2, and monotonicity along a concrete two-input run. -/
theorem claim_C3_finalized_monotone_witness :
    maybePrune exPAFinalized 0 1 =
      (.error (.revertedFinalizedEpoch exPAFinalized.finalizedEpoch 0), exPAFinalized) ∧
    exFCState.fcStore.finalizedCheckpoint.epoch ≤
      (fcRun (fun r _ => r) exFCState [.head 6, .prune]).fcStore.finalizedCheckpoint.epoch :=
  ⟨claim_C3_finalized_monotone.2.1 exPAFinalized 0 1 (by decide),
   claim_C3_finalized_monotone.2.2 (fun r _ => r) exFCState [.head 6, .prune]⟩

/-! ## C6: unaggregated-attestation verification stages -/

/-- C6: `VerifiedUnaggregatedAttestation::verify` runs its stages in
order — slot window, exactly-one-bit, known head block, committee
resolution, attester dedup, signature, observation — each fatal with its
enumerated error; every failure before the final stage leaves the
observed-attesters set untouched, so the `(validator, target_epoch)` pair
is inserted only after the signature verifies; and a concurrent
observation discovered at the final stage yields
`PriorAttestationKnown`. -/
theorem claim_C6_verify_stage_order (env : GossipAttEnv) (obsD obsO : ObservedSet) :
    (∀ e, verifyPropagationSlotRange env = .error e →
      verifyUnaggregated env obsD obsO = (.error e, obsO)) ∧
    (verifyPropagationSlotRange env = .ok () → env.numSetBits ≠ 1 →
      verifyUnaggregated env obsD obsO =
        (.error (.notExactlyOneAggregationBitSet env.numSetBits), obsO)) ∧
    (verifyPropagationSlotRange env = .ok () → env.numSetBits = 1 →
      env.headBlockKnown = false →
      verifyUnaggregated env obsD obsO =
        (.error (.unknownHeadBlock env.beaconBlockRoot), obsO)) ∧
    (∀ e, verifyPropagationSlotRange env = .ok () → env.numSetBits = 1 →
      env.headBlockKnown = true → env.committee = .error e →
      verifyUnaggregated env obsD obsO = (.error e, obsO)) ∧
    (∀ l v, verifyPropagationSlotRange env = .ok () → env.numSetBits = 1 →
      env.headBlockKnown = true → env.committee = .ok l → l.head? = some v →
      obsHas obsD v env.targetEpoch = true →
      verifyUnaggregated env obsD obsO =
        (.error (.priorAttestationKnown v env.targetEpoch), obsO)) ∧
    (∀ l v, verifyPropagationSlotRange env = .ok () → env.numSetBits = 1 →
      env.headBlockKnown = true → env.committee = .ok l → l.head? = some v →
      obsHas obsD v env.targetEpoch = false → env.signatureValid = false →
      verifyUnaggregated env obsD obsO = (.error .invalidSignature, obsO)) ∧
    (∀ l v, verifyPropagationSlotRange env = .ok () → env.numSetBits = 1 →
      env.headBlockKnown = true → env.committee = .ok l → l.head? = some v →
      obsHas obsD v env.targetEpoch = false → env.signatureValid = true →
      obsHas obsO v env.targetEpoch = true →
      verifyUnaggregated env obsD obsO =
        (.error (.priorAttestationKnown v env.targetEpoch), obsO)) ∧
    (∀ l v, verifyPropagationSlotRange env = .ok () → env.numSetBits = 1 →
      env.headBlockKnown = true → env.committee = .ok l → l.head? = some v →
      obsHas obsD v env.targetEpoch = false → env.signatureValid = true →
      obsHas obsO v env.targetEpoch = false →
      verifyUnaggregated env obsD obsO = (.ok l, obsO ++ [(v, env.targetEpoch)])) := by
  refine ⟨?_, ?_, ?_, ?_, ?_, ?_, ?_, ?_⟩
  · intro e h
    simp [verifyUnaggregated, h]
  · intro h1 h2
    simp [verifyUnaggregated, h1, h2]
  · intro h1 h2 h3
    simp [verifyUnaggregated, h1, h2, h3]
  · intro e h1 h2 h3 h4
    simp [verifyUnaggregated, h1, h2, h3, h4]
  · intro l v h1 h2 h3 h4 h5 h6
    simp [verifyUnaggregated, h1, h2, h3, h4, h5, h6]
  · intro l v h1 h2 h3 h4 h5 h6 h7
    simp [verifyUnaggregated, h1, h2, h3, h4, h5, h6, h7]
  · intro l v h1 h2 h3 h4 h5 h6 h7 h8
    simp [verifyUnaggregated, obsObserve, h1, h2, h3, h4, h5, h6, h7, h8]
  · intro l v h1 h2 h3 h4 h5 h6 h7 h8
    simp [verifyUnaggregated, obsObserve, h1, h2, h3, h4, h5, h6, h7, h8]

/-- Witness for C6: in an environment where every stage passes, `verify`
succeeds and the pair `(42, 0)` is observed. -/
theorem claim_C6_verify_stage_order_witness :
    verifyUnaggregated exEnv [] [] = (.ok [42], [] ++ [(42, exEnv.targetEpoch)]) :=
  (claim_C6_verify_stage_order exEnv [] []).2.2.2.2.2.2.2 [42] 42
    rfl rfl rfl rfl rfl rfl rfl rfl

/-! ## C9: exactly one concurrent slashing-protection insert succeeds -/

/-- Once a recorded block has slot ≥ `slot`, every further insert at
`slot` fails and changes nothing. -/
theorem runBlockInserts_blocked (slot : Nat) :
    ∀ (n : Nat) (rec : ValidatorRecord),
      rec.blocks.any (fun s => decide (s ≥ slot)) = true →
      runBlockInserts rec (List.replicate n slot) = (0, rec) := by
  intro n
  induction n with
  | zero => intro rec h; rfl
  | succ m ih =>
    intro rec h
    have hc : checkAndInsertBlock rec slot = (.error .blockSlotViolation, rec) := by
      simp [checkAndInsertBlock, h]
    rw [List.replicate_succ]
    simp only [runBlockInserts, hc]
    exact ih rec h

/-- Once a recorded attestation has target epoch `t`, every further
insert with target `t` fails and changes nothing. -/
theorem runAttestationInserts_blocked (t : Nat) :
    ∀ (pairs : List (Nat × Nat)) (rec : ValidatorRecord),
      (∀ p ∈ pairs, p.2 = t) →
      rec.attestations.any (fun p => decide (p.2 = t)) = true →
      runAttestationInserts rec pairs = (0, rec) := by
  intro pairs
  induction pairs with
  | nil => intro rec _ _; rfl
  | cons q rest ih =>
    intro rec hall h
    have hq : q.2 = t := hall q (List.mem_cons_self q rest)
    have hc : checkAndInsertAttestation rec q.1 q.2 = (.error .doubleVote, rec) := by
      rw [hq]
      simp [checkAndInsertAttestation, h]
    rcases q with ⟨s, tg⟩
    simp only [runAttestationInserts, hc]
    exact ih rec (fun p hp => hall p (List.mem_cons_of_mem _ hp)) h

/-- C9: with per-validator writes totally ordered (the spec's §5
concurrency guarantee), any serialization of N ≥ 1 identical
`check_and_insert_block(pk, slot)` calls against a freshly registered
validator has exactly one success, and likewise for N ≥ 1
`check_and_insert_attestation` calls sharing one `target.epoch`. -/
theorem claim_C9_exactly_one_success :
    (∀ slot n, 1 ≤ n →
      (runBlockInserts emptyRecord (List.replicate n slot)).1 = 1) ∧
    (∀ (pairs : List (Nat × Nat)) (t : Nat), pairs ≠ [] →
      (∀ p ∈ pairs, p.2 = t) →
      (runAttestationInserts emptyRecord pairs).1 = 1) := by
  constructor
  · intro slot n hn
    obtain ⟨m, rfl⟩ : ∃ m, n = m + 1 := ⟨n - 1, by omega⟩
    rw [List.replicate_succ]
    have hc : checkAndInsertBlock emptyRecord slot =
        (.ok (), { blocks := [slot], attestations := [] }) := by
      simp [checkAndInsertBlock, emptyRecord]
    have hb : runBlockInserts { blocks := [slot], attestations := [] }
        (List.replicate m slot) = (0, { blocks := [slot], attestations := [] }) :=
      runBlockInserts_blocked slot m _ (by simp)
    simp only [runBlockInserts, hc, hb]
  · intro pairs t hne hall
    rcases pairs with _ | ⟨⟨s, tg⟩, rest⟩
    · exact absurd rfl hne
    have htg : tg = t := hall (s, tg) (List.mem_cons_self _ rest)
    subst htg
    have hc : checkAndInsertAttestation emptyRecord s tg =
        (.ok (), { blocks := [], attestations := [(s, tg)] }) := by
      simp [checkAndInsertAttestation, emptyRecord]
    have hb : runAttestationInserts { blocks := [], attestations := [(s, tg)] } rest =
        (0, { blocks := [], attestations := [(s, tg)] }) :=
      runAttestationInserts_blocked tg rest _
        (fun p hp => hall p (List.mem_cons_of_mem _ hp)) (by simp)
    simp only [runAttestationInserts, hc, hb]

/-- Witness for C9: three identical block inserts and three same-target
attestation inserts each produce exactly one success. -/
theorem claim_C9_exactly_one_success_witness :
    (runBlockInserts emptyRecord (List.replicate 3 1)).1 = 1 ∧
    (runAttestationInserts emptyRecord [(0, 5), (1, 5), (2, 5)]).1 = 1 :=
  ⟨claim_C9_exactly_one_success.1 1 3 (by omega),
   claim_C9_exactly_one_success.2 [(0, 5), (1, 5), (2, 5)] 5 (by simp)
     (by decide)⟩

/-! ## C7: aggregation-pool retention and capacity -/

/-- A successful bucket insert grows the bucket by at most one entry and
never beyond the capacity. -/
theorem aggMapInsert_length (m : AggMap) (a : PoolAttestation)
    (o : InsertOutcome) (m' : AggMap) (h : aggMapInsert m a = .ok (o, m'))
    (hm : m.length ≤ MAX_ATTESTATIONS_PER_SLOT) :
    m'.length ≤ MAX_ATTESTATIONS_PER_SLOT := by
  simp only [aggMapInsert] at h
  rcases hhead : (setBitIndices a.aggregationBits).head? with _ | ci
  · simp only [hhead] at h
    cases h
  · simp only [hhead] at h
    by_cases hone : (setBitIndices a.aggregationBits).length > 1
    · rw [if_pos hone] at h
      cases h
    · rw [if_neg hone] at h
      rcases hfind : m.find? (fun p => decide (p.1 = a.data)) with _ | existing
      · simp only [hfind] at h
        by_cases hmax : m.length ≥ MAX_ATTESTATIONS_PER_SLOT
        · rw [if_pos hmax] at h
          cases h
        · rw [if_neg hmax] at h
          simp only [Except.ok.injEq, Prod.mk.injEq] at h
          rw [← h.2, List.length_append]
          simp only [List.length_singleton]
          omega
      · simp only [hfind] at h
        rcases hbit : existing.2.aggregationBits.get? ci with _ | bit
        · simp only [hbit] at h
          cases h
        · simp only [hbit] at h
          cases bit
          · simp only [Bool.false_eq_true, if_false] at h
            simp only [Except.ok.injEq, Prod.mk.injEq] at h
            rw [← h.2, List.length_map]
            exact hm
          · simp only [if_true] at h
            simp only [Except.ok.injEq, Prod.mk.injEq] at h
            rw [← h.2]
            exact hm

/-- The only errors of a bucket insert into an empty bucket are the
bitfield ones; in particular it never reports the capacity error. -/
theorem aggMapInsert_nil_not_max (a : PoolAttestation) (e : PoolError)
    (h : aggMapInsert [] a = .error e) :
    e ≠ .reachedMaxAttestationsPerSlot MAX_ATTESTATIONS_PER_SLOT := by
  simp only [aggMapInsert] at h
  rcases hhead : (setBitIndices a.aggregationBits).head? with _ | ci
  · simp only [hhead, Except.error.injEq] at h
    rw [← h]
    intro hc
    cases hc
  · simp only [hhead] at h
    by_cases hone : (setBitIndices a.aggregationBits).length > 1
    · rw [if_pos hone] at h
      injection h with he
      rw [← he]
      intro hc
      cases hc
    · rw [if_neg hone] at h
      simp only [List.find?] at h
      rw [if_neg (by decide : ¬ (List.length ([] : AggMap) ≥ MAX_ATTESTATIONS_PER_SLOT))] at h
      cases h

/-- `prune` always leaves the lowest permissible slot at
`current_slot - SLOTS_RETAINED`. -/
theorem poolPrune_lowest (pool : NaivePool) (c : Nat) :
    (poolPrune pool c).lowestPermissibleSlot = c - SLOTS_RETAINED := by
  simp only [poolPrune]
  split
  next h => exact h.1
  next h =>
  split <;> rfl

/-- Dropping the lowest buckets keeps a subset of the buckets. -/
theorem dropLowestSlots_subset :
    ∀ (k : Nat) (maps : List (Nat × AggMap)) (b : Nat × AggMap),
      b ∈ dropLowestSlots k maps → b ∈ maps := by
  intro k
  induction k with
  | zero => intro maps b hb; exact hb
  | succ n ih =>
    intro maps b hb
    rw [dropLowestSlots] at hb
    split at hb
    · exact hb
    next m hm =>
    exact (List.mem_filter.mp (ih _ b hb)).1

/-- Dropping `k` lowest buckets removes at least `k` buckets (or ends
empty). -/
theorem dropLowestSlots_length :
    ∀ (k : Nat) (maps : List (Nat × AggMap)),
      (dropLowestSlots k maps).length ≤ maps.length - k := by
  intro k
  induction k with
  | zero => intro maps; simp [dropLowestSlots]
  | succ n ih =>
    intro maps
    rw [dropLowestSlots]
    split
    next hm =>
      have hnil : maps = [] := by
        have := List.min?_eq_none_iff.mp hm
        simpa using this
      rw [hnil]
      simp
    next m hm =>
    have hmem : m ∈ maps.map Prod.fst :=
      List.min?_mem (fun a b => min_choice a b) hm
    obtain ⟨b₀, hb₀, hb₀m⟩ := List.mem_map.mp hmem
    have hlt : (maps.filter (fun b => decide (b.1 ≠ m))).length < maps.length := by
      rw [List.length_filter_lt_length_iff_exists]
      exact ⟨b₀, hb₀, by simp [hb₀m]⟩
    have := ih (maps.filter (fun b => decide (b.1 ≠ m)))
    omega

/-- After any `prune` at most `SLOTS_RETAINED` buckets remain. -/
theorem poolPrune_length (pool : NaivePool) (c : Nat) :
    (poolPrune pool c).maps.length ≤ SLOTS_RETAINED := by
  simp only [poolPrune]
  split
  next h => exact h.2
  next h =>
  split
  next hgt =>
    dsimp only
    have := dropLowestSlots_length
      ((pool.maps.filter (fun b => decide (c - SLOTS_RETAINED ≤ b.1))).length - SLOTS_RETAINED)
      (pool.maps.filter (fun b => decide (c - SLOTS_RETAINED ≤ b.1)))
    omega
  next hle =>
    dsimp only
    omega

/-- `prune` preserves the buckets-at-or-above-the-floor invariant. -/
theorem poolPrune_buckets (pool : NaivePool) (c : Nat)
    (hinv : ∀ b ∈ pool.maps, pool.lowestPermissibleSlot ≤ b.1) :
    ∀ b ∈ (poolPrune pool c).maps,
      (poolPrune pool c).lowestPermissibleSlot ≤ b.1 := by
  simp only [poolPrune]
  split
  next h =>
    intro b hb
    exact hinv b hb
  next h =>
  split
  · intro b hb
    exact of_decide_eq_true (List.mem_filter.mp (dropLowestSlots_subset _ _ b hb)).2
  · intro b hb
    exact of_decide_eq_true (List.mem_filter.mp hb).2

/-- Every bucket surviving a `prune` was in the pool before it. -/
theorem poolPrune_mem (pool : NaivePool) (c : Nat) :
    ∀ b ∈ (poolPrune pool c).maps, b ∈ pool.maps := by
  simp only [poolPrune]
  split
  · intro b hb
    exact hb
  next h =>
  split
  · intro b hb
    exact (List.mem_filter.mp (dropLowestSlots_subset _ _ b hb)).1
  · intro b hb
    exact (List.mem_filter.mp hb).1

/-- Every bucket produced by the lookup-or-create step respects the
per-bucket capacity. -/
theorem poolInsertStep_size (pool : NaivePool) (a : PoolAttestation)
    (hsize : ∀ b ∈ pool.maps, b.2.length ≤ MAX_ATTESTATIONS_PER_SLOT) :
    ∀ b ∈ (poolInsertStep pool a).2, b.2.length ≤ MAX_ATTESTATIONS_PER_SLOT := by
  unfold poolInsertStep
  split
  next bucket hfind =>
    have hbucket : bucket ∈ pool.maps := List.mem_of_find?_eq_some hfind
    split
    next e herr => exact hsize
    next o m' hok =>
      intro b hb
      obtain ⟨b₀, hb₀, hb₀e⟩ := List.mem_map.mp hb
      by_cases hb₀s : b₀.1 = a.data.slot
      · rw [if_pos hb₀s] at hb₀e
        rw [← hb₀e]
        exact aggMapInsert_length bucket.2 a o m' hok (hsize bucket hbucket)
      · rw [if_neg hb₀s] at hb₀e
        rw [← hb₀e]
        exact hsize b₀ hb₀
  next hfind =>
    split
    next e herr =>
      intro b hb
      rcases List.mem_append.mp hb with hb | hb
      · exact hsize b hb
      · simp only [List.mem_singleton] at hb
        rw [hb]
        simp [MAX_ATTESTATIONS_PER_SLOT]
    next o m' hok =>
      intro b hb
      rcases List.mem_append.mp hb with hb | hb
      · exact hsize b hb
      · simp only [List.mem_singleton] at hb
        rw [hb]
        exact aggMapInsert_length [] a o m' hok (by simp [MAX_ATTESTATIONS_PER_SLOT])

/-- Every bucket slot produced by the lookup-or-create step is an old
bucket slot or the inserted attestation's slot. -/
theorem poolInsertStep_slots (pool : NaivePool) (a : PoolAttestation) :
    ∀ b ∈ (poolInsertStep pool a).2,
      (∃ b₀ ∈ pool.maps, b.1 = b₀.1) ∨ b.1 = a.data.slot := by
  unfold poolInsertStep
  split
  next bucket hfind =>
    split
    next e herr =>
      intro b hb
      exact Or.inl ⟨b, hb, rfl⟩
    next o m' hok =>
      intro b hb
      obtain ⟨b₀, hb₀, hb₀e⟩ := List.mem_map.mp hb
      by_cases hb₀s : b₀.1 = a.data.slot
      · rw [if_pos hb₀s] at hb₀e
        rw [← hb₀e]
        exact Or.inr hb₀s
      · rw [if_neg hb₀s] at hb₀e
        exact Or.inl ⟨b₀, hb₀, by rw [← hb₀e]⟩
  next hfind =>
    split <;>
    · intro b hb
      rcases List.mem_append.mp hb with hb | hb
      · exact Or.inl ⟨b, hb, rfl⟩
      · simp only [List.mem_singleton] at hb
        rw [hb]
        exact Or.inr rfl

/-- `insert` preserves the pool invariant. -/
theorem poolInsert_wf (pool : NaivePool) (a : PoolAttestation)
    (h : poolWF pool) : poolWF (poolInsert pool a).2 := by
  obtain ⟨hlen, hlow, hsize⟩ := h
  simp only [poolInsert]
  split
  · exact ⟨hlen, hlow, hsize⟩
  next hge =>
  have hinvP : ∀ b ∈ (poolInsertStep pool a).2, pool.lowestPermissibleSlot ≤ b.1 := by
    intro b hb
    rcases poolInsertStep_slots pool a b hb with ⟨b₀, hb₀, he⟩ | he
    · rw [he]
      exact hlow b₀ hb₀
    · rw [he]
      omega
  refine ⟨poolPrune_length _ _, ?_, ?_⟩
  · exact poolPrune_buckets { pool with maps := (poolInsertStep pool a).2 } a.data.slot hinvP
  · intro b hb
    exact poolInsertStep_size pool a hsize b
      (poolPrune_mem { pool with maps := (poolInsertStep pool a).2 } a.data.slot b hb)

/-- `prune` preserves the pool invariant. -/
theorem poolPrune_wf (pool : NaivePool) (c : Nat) (h : poolWF pool) :
    poolWF (poolPrune pool c) := by
  obtain ⟨hlen, hlow, hsize⟩ := h
  exact ⟨poolPrune_length pool c, poolPrune_buckets pool c hlow,
    fun b hb => hsize b (poolPrune_mem pool c b hb)⟩

/-- The invariant holds along every run from the default pool. -/
theorem poolRun_wf (ops : List PoolOp) :
    ∀ pool : NaivePool, poolWF pool → poolWF (poolRun pool ops) := by
  induction ops with
  | nil => intro pool h; exact h
  | cons op rest ih =>
    intro pool h
    cases op with
    | insert a => exact ih _ (poolInsert_wf pool a h)
    | prune c => exact ih _ (poolPrune_wf pool c h)

/-- Counterexample to C7 as stated: inserting single-bit attestations at
slots 0 and then 3 into a fresh pool retains the slot-0 bucket, although
`0 < 3 - SLOTS_RETAINED + 1`; the code's floor is `current_slot -
SLOTS_RETAINED`, not `current_slot - SLOTS_RETAINED + 1`. -/
theorem claim_C7_counterexample :
    exPool03.maps.map Prod.fst = [0, 3] ∧
    ¬ ((3 : Nat) - SLOTS_RETAINED + 1 ≤ 0) := by
  constructor
  · rfl
  · decide

/-- C7 amended: after any sequence of `insert`s and `prune`s from the
default pool, at most `SLOTS_RETAINED` buckets remain, every bucket is at
or above the pool's floor, and no bucket exceeds
`MAX_ATTESTATIONS_PER_SLOT` entries; an `insert` that passes the slot
check leaves the floor at `slot - SLOTS_RETAINED` and every retained
bucket at or above `slot - SLOTS_RETAINED` (not `… + 1`); a bucket insert
hitting the capacity fails with `ReachedMaxAttestationsPerSlot` without
growing the bucket; and an `insert` failing that way changes the pool
only by the `prune` that every non-rejected insert performs. -/
theorem claim_C7_pool_invariants :
    (∀ ops : List PoolOp, poolWF (poolRun defaultPool ops)) ∧
    (∀ (pool : NaivePool) (a : PoolAttestation), poolWF pool →
      ¬ a.data.slot < pool.lowestPermissibleSlot →
      (poolInsert pool a).2.lowestPermissibleSlot = a.data.slot - SLOTS_RETAINED ∧
      ∀ b ∈ (poolInsert pool a).2.maps, a.data.slot - SLOTS_RETAINED ≤ b.1) ∧
    (∀ (m : AggMap) (a : PoolAttestation) (o : InsertOutcome) (m' : AggMap),
      aggMapInsert m a = .ok (o, m') → m.length ≤ MAX_ATTESTATIONS_PER_SLOT →
      m'.length ≤ MAX_ATTESTATIONS_PER_SLOT) ∧
    (∀ (pool : NaivePool) (a : PoolAttestation) (pool' : NaivePool),
      poolInsert pool a =
        (.error (.reachedMaxAttestationsPerSlot MAX_ATTESTATIONS_PER_SLOT), pool') →
      pool' = poolPrune pool a.data.slot) := by
  refine ⟨?_, ?_, aggMapInsert_length, ?_⟩
  · intro ops
    exact poolRun_wf ops defaultPool (by constructor <;> simp [defaultPool])
  · intro pool a h hge
    obtain ⟨hlen, hlow, hsize⟩ := h
    have hinvP : ∀ b ∈ (poolInsertStep pool a).2, pool.lowestPermissibleSlot ≤ b.1 := by
      intro b hb
      rcases poolInsertStep_slots pool a b hb with ⟨b₀, hb₀, he⟩ | he
      · rw [he]
        exact hlow b₀ hb₀
      · rw [he]
        omega
    simp only [poolInsert]
    rw [if_neg hge]
    refine ⟨poolPrune_lowest _ _, ?_⟩
    intro b hb
    have := poolPrune_buckets { pool with maps := (poolInsertStep pool a).2 }
      a.data.slot hinvP b hb
    rw [poolPrune_lowest] at this
    exact this
  · intro pool a pool' h
    simp only [poolInsert] at h
    split at h
    · simp only [Prod.mk.injEq] at h
      cases h.1
    next hge =>
    simp only [Prod.mk.injEq] at h
    obtain ⟨hstep, hpool⟩ := h
    have hmaps : (poolInsertStep pool a).2 = pool.maps := by
      unfold poolInsertStep at hstep ⊢
      split at hstep
      next bucket hfind =>
        split at hstep
        · rfl
        next o m' hok =>
          dsimp only at hstep
          cases hstep
      next hfind =>
        split at hstep
        next e herr =>
          dsimp only at hstep
          injection hstep with he
          exact absurd he (aggMapInsert_nil_not_max a e herr)
        next o m' hok =>
          dsimp only at hstep
          cases hstep
    rw [← hpool, hmaps]

/-- Witness for the amended C7: one insert at slot 0 into the fresh pool
preserves the invariant and establishes the floor. -/
theorem claim_C7_pool_invariants_witness :
    poolWF (poolRun defaultPool [.insert (exPoolAtt 0)]) ∧
    (poolInsert defaultPool (exPoolAtt 0)).2.lowestPermissibleSlot =
      (exPoolAtt 0).data.slot - SLOTS_RETAINED ∧
    (∀ (o : InsertOutcome) (m' : AggMap),
      aggMapInsert [] (exPoolAtt 0) = .ok (o, m') →
      m'.length ≤ MAX_ATTESTATIONS_PER_SLOT) :=
  ⟨claim_C7_pool_invariants.1 [.insert (exPoolAtt 0)],
   (claim_C7_pool_invariants.2.1 defaultPool (exPoolAtt 0) (by decide) (by decide)).1,
   fun o m' h => claim_C7_pool_invariants.2.2.1 [] (exPoolAtt 0) o m' h (by decide)⟩

/-! ## C8: snapshot serialization round-trip -/

/-- A `k`-byte little-endian encoding has length `k`. -/
theorem toLE_length : ∀ (k n : Nat), (toLE k n).length = k := by
  intro k
  induction k with
  | zero => intro n; rfl
  | succ m ih =>
    intro n
    simp [toLE, ih]

/-- Little-endian decoding inverts the encoding of any value that fits. -/
theorem fromLE_toLE : ∀ (k n : Nat), n < 256 ^ k → fromLE (toLE k n) = n := by
  intro k
  induction k with
  | zero =>
    intro n h
    simp only [pow_zero, Nat.lt_one_iff] at h
    simp [toLE, fromLE, h]
  | succ m ih =>
    intro n h
    have hdiv : n / 256 < 256 ^ m := by
      rw [Nat.div_lt_iff_lt_mul (by norm_num : 0 < 256)]
      calc n < 256 ^ (m + 1) := h
        _ = 256 ^ m * 256 := by ring
    simp only [toLE, fromLE]
    rw [ih (n / 256) hdiv]
    omega

/-- The concatenated `u64` encodings have length `8 · |l|`. -/
theorem encodeU64List_length (l : List Nat) :
    (encodeU64List l).length = 8 * l.length := by
  induction l with
  | nil => rfl
  | cons x rest ih =>
    simp only [encodeU64List, List.map_cons, List.flatten_cons, List.length_append,
      toLE_length]
    simp only [encodeU64List] at ih
    rw [ih]
    simp [List.length_cons]
    ring

/-- The fuelled `u64`-vector decoder inverts the encoder. -/
theorem decodeU64ListGo_encode :
    ∀ (l : List Nat) (fuel : Nat), (∀ x ∈ l, x < 2 ^ 64) → l.length ≤ fuel →
      decodeU64ListGo fuel (encodeU64List l) = some l := by
  intro l
  induction l with
  | nil =>
    intro fuel _ _
    cases fuel <;> rfl
  | cons x rest ih =>
    intro fuel hbound hfuel
    obtain ⟨f, rfl⟩ : ∃ f, fuel = f + 1 := ⟨fuel - 1, by simp at hfuel; omega⟩
    have hlen : (encodeU64List (x :: rest)).length = 8 * (rest.length + 1) := by
      rw [encodeU64List_length]
      simp
    rcases hb : encodeU64List (x :: rest) with _ | ⟨hd, tl⟩
    · rw [hb] at hlen
      simp at hlen
    have htake : (hd :: tl).take 8 = toLE 8 x := by
      rw [← hb]
      show (encodeU64List (x :: rest)).take 8 = toLE 8 x
      simp only [encodeU64List, List.map_cons, List.flatten_cons]
      exact List.take_left' (toLE_length 8 x)
    have hdrop : (hd :: tl).drop 8 = encodeU64List rest := by
      rw [← hb]
      show (encodeU64List (x :: rest)).drop 8 = encodeU64List rest
      simp only [encodeU64List, List.map_cons, List.flatten_cons]
      exact List.drop_left' (toLE_length 8 x)
    have hlen' : (hd :: tl).length = 8 * (rest.length + 1) := by
      rw [← hb]
      exact hlen
    rw [decodeU64ListGo]
    rw [if_neg (by omega : ¬ (hd :: tl).length < 8)]
    rw [hdrop, ih f (fun y hy => hbound y (List.mem_cons_of_mem x hy)) (by simp at hfuel; omega)]
    rw [htake, fromLE_toLE 8 x (hbound x (List.mem_cons_self x rest))]

/-- The `u64`-vector decoder inverts the encoder. -/
theorem decodeU64List_encode (l : List Nat) (hbound : ∀ x ∈ l, x < 2 ^ 64) :
    decodeU64List (encodeU64List l) = some l := by
  unfold decodeU64List
  apply decodeU64ListGo_encode l _ hbound
  rw [encodeU64List_length]
  omega

/-- The `QueuedAttestation` decoder inverts the encoder for
machine-representable values. -/
theorem decodeQueuedAttestation_encode (q : QueuedAttestation)
    (h : wfQueuedAttestation q) :
    decodeQueuedAttestation (encodeQueuedAttestation q) = some q := by
  obtain ⟨hslot, hroot, hepoch, hidx⟩ := h
  have hb : encodeQueuedAttestation q =
      toLE 8 q.slot ++ (toLE 4 52 ++ (toLE 32 q.blockRoot ++ (toLE 8 q.targetEpoch
        ++ encodeU64List q.attestingIndices))) := by
    simp [encodeQueuedAttestation, List.append_assoc]
  have hlen : (encodeQueuedAttestation q).length =
      52 + (encodeU64List q.attestingIndices).length := by
    rw [hb]
    simp [toLE_length]
    omega
  have h8 : (encodeQueuedAttestation q).drop 8 =
      toLE 4 52 ++ (toLE 32 q.blockRoot ++ (toLE 8 q.targetEpoch
        ++ encodeU64List q.attestingIndices)) := by
    rw [hb]
    exact List.drop_left' (toLE_length 8 q.slot)
  have h12 : (encodeQueuedAttestation q).drop 12 =
      toLE 32 q.blockRoot ++ (toLE 8 q.targetEpoch
        ++ encodeU64List q.attestingIndices) := by
    have : (12 : Nat) = 8 + 4 := rfl
    rw [this, ← List.drop_drop, h8]
    exact List.drop_left' (toLE_length 4 52)
  have h44 : (encodeQueuedAttestation q).drop 44 =
      toLE 8 q.targetEpoch ++ encodeU64List q.attestingIndices := by
    have : (44 : Nat) = 12 + 32 := rfl
    rw [this, ← List.drop_drop, h12]
    exact List.drop_left' (toLE_length 32 q.blockRoot)
  have h52 : (encodeQueuedAttestation q).drop 52 =
      encodeU64List q.attestingIndices := by
    have : (52 : Nat) = 44 + 8 := rfl
    rw [this, ← List.drop_drop, h44]
    exact List.drop_left' (toLE_length 8 q.targetEpoch)
  have htake8 : (encodeQueuedAttestation q).take 8 = toLE 8 q.slot := by
    rw [hb]
    exact List.take_left' (toLE_length 8 q.slot)
  have htake4 : ((encodeQueuedAttestation q).drop 8).take 4 = toLE 4 52 := by
    rw [h8]
    exact List.take_left' (toLE_length 4 52)
  have htake32 : ((encodeQueuedAttestation q).drop 12).take 32 = toLE 32 q.blockRoot := by
    rw [h12]
    exact List.take_left' (toLE_length 32 q.blockRoot)
  have htakeE : ((encodeQueuedAttestation q).drop 44).take 8 = toLE 8 q.targetEpoch := by
    rw [h44]
    exact List.take_left' (toLE_length 8 q.targetEpoch)
  unfold decodeQueuedAttestation
  rw [if_neg (by omega : ¬ (encodeQueuedAttestation q).length < 52)]
  rw [htake8, fromLE_toLE 8 q.slot hslot]
  rw [htake4, fromLE_toLE 4 52 (by norm_num)]
  rw [htake32, fromLE_toLE 32 q.blockRoot hroot]
  rw [htakeE, fromLE_toLE 8 q.targetEpoch hepoch]
  rw [if_pos rfl]
  rw [h52, decodeU64List_encode q.attestingIndices hidx]

/-- `varOffsets` yields one offset per item. -/
theorem varOffsets_length : ∀ (items : List (List Nat)) (base : Nat),
    (varOffsets base items).length = items.length := by
  intro items
  induction items with
  | nil => intro base; rfl
  | cons item rest ih =>
    intro base
    simp [varOffsets, ih]

/-- Every offset lies between the header base and the end of the blob. -/
theorem varOffsets_bounds : ∀ (items : List (List Nat)) (base : Nat),
    ∀ o ∈ varOffsets base items, base ≤ o ∧ o ≤ base + items.flatten.length := by
  intro items
  induction items with
  | nil =>
    intro base o ho
    cases ho
  | cons item rest ih =>
    intro base o ho
    rw [varOffsets] at ho
    rcases List.mem_cons.mp ho with rfl | ho
    · simp
    · have := ih (base + item.length) o ho
      simp only [List.flatten_cons, List.length_append]
      omega

/-- Reading back the offset header recovers the offsets. -/
theorem readOffsets_spec :
    ∀ (offsets : List Nat) (P rest : List Nat),
      (∀ o ∈ offsets, o < 2 ^ 32) →
      readOffsets (P ++ ((offsets.map (toLE 4)).flatten ++ rest)) P.length
        offsets.length = offsets := by
  intro offsets
  induction offsets with
  | nil => intro P rest _; rfl
  | cons o os ih =>
    intro P rest hbound
    have hb : P ++ ((List.map (toLE 4) (o :: os)).flatten ++ rest) =
        P ++ (toLE 4 o ++ ((os.map (toLE 4)).flatten ++ rest)) := by
      simp [List.append_assoc]
    have hdropP : (P ++ ((List.map (toLE 4) (o :: os)).flatten ++ rest)).drop P.length =
        toLE 4 o ++ ((os.map (toLE 4)).flatten ++ rest) := by
      rw [hb]
      exact List.drop_left _ _
    have hb' : P ++ ((List.map (toLE 4) (o :: os)).flatten ++ rest) =
        (P ++ toLE 4 o) ++ ((os.map (toLE 4)).flatten ++ rest) := by
      rw [hb, List.append_assoc]
    rw [List.length_cons, readOffsets, hdropP]
    rw [List.take_left' (toLE_length 4 o)]
    rw [fromLE_toLE 4 o (hbound o (List.mem_cons_self o os))]
    have hplen : P.length + 4 = (P ++ toLE 4 o).length := by
      simp [toLE_length]
    rw [hb', hplen, ih (P ++ toLE 4 o) rest
      (fun x hx => hbound x (List.mem_cons_of_mem o hx))]

/-- Decoding the computed slices recovers the encoded attestations. -/
theorem decodeSlices_spec :
    ∀ (qs : List QueuedAttestation) (P : List Nat),
      (∀ q ∈ qs, decodeQueuedAttestation (encodeQueuedAttestation q) = some q) →
      decodeSlices (P ++ (qs.map encodeQueuedAttestation).flatten)
        (sliceBounds (P ++ (qs.map encodeQueuedAttestation).flatten).length
          (varOffsets P.length (qs.map encodeQueuedAttestation))) = some qs := by
  intro qs
  induction qs with
  | nil => intro P _; rfl
  | cons q qs' ih =>
    intro P hdec
    cases qs' with
    | nil =>
      simp only [List.map_cons, List.map_nil, List.flatten_cons, List.flatten_nil,
        List.append_nil, varOffsets, sliceBounds]
      rw [decodeSlices]
      rw [if_pos ⟨by simp, le_refl _⟩]
      rw [List.drop_left]
      have hlen : (P ++ encodeQueuedAttestation q).length - P.length =
          (encodeQueuedAttestation q).length := by
        simp
      rw [hlen, List.take_length]
      rw [hdec q (List.mem_cons_self q [])]
      rfl
    | cons q₂ rest₂ =>
      have hb : P ++ ((q :: q₂ :: rest₂).map encodeQueuedAttestation).flatten =
          (P ++ encodeQueuedAttestation q) ++
            ((q₂ :: rest₂).map encodeQueuedAttestation).flatten := by
        simp [List.append_assoc]
      have hoff : varOffsets P.length ((q :: q₂ :: rest₂).map encodeQueuedAttestation) =
          P.length :: varOffsets (P ++ encodeQueuedAttestation q).length
            ((q₂ :: rest₂).map encodeQueuedAttestation) := by
        simp [varOffsets]
      have hoff₂ : varOffsets (P ++ encodeQueuedAttestation q).length
            ((q₂ :: rest₂).map encodeQueuedAttestation) =
          (P ++ encodeQueuedAttestation q).length ::
            varOffsets ((P ++ encodeQueuedAttestation q).length +
              (encodeQueuedAttestation q₂).length)
              ((rest₂).map encodeQueuedAttestation) := by
        simp [varOffsets]
      rw [hoff, hoff₂, sliceBounds]
      rw [← hoff₂]
      rw [decodeSlices]
      rw [if_pos ?bounds]
      case bounds =>
        constructor
        · simp
        · rw [hb]
          simp
      have hdrop : ((P ++ ((q :: q₂ :: rest₂).map encodeQueuedAttestation).flatten).drop
          P.length).take ((P ++ encodeQueuedAttestation q).length - P.length) =
          encodeQueuedAttestation q := by
        have h1 : (P ++ ((q :: q₂ :: rest₂).map encodeQueuedAttestation).flatten).drop
            P.length = encodeQueuedAttestation q ++
              ((q₂ :: rest₂).map encodeQueuedAttestation).flatten := by
          simp only [List.map_cons, List.flatten_cons]
          exact List.drop_left _ _
        have h2 : (P ++ encodeQueuedAttestation q).length - P.length =
            (encodeQueuedAttestation q).length := by
          simp
        rw [h1, h2]
        exact List.take_left _ _
      rw [hdrop, hdec q (List.mem_cons_self q (q₂ :: rest₂))]
      have hrec := ih (P ++ encodeQueuedAttestation q)
        (fun x hx => hdec x (List.mem_cons_of_mem q hx))
      rw [hb, hrec]

/-- The offset header occupies 4 bytes per offset. -/
theorem flatten_toLE4_length : ∀ l : List Nat,
    ((l.map (toLE 4)).flatten).length = 4 * l.length := by
  intro l
  induction l with
  | nil => rfl
  | cons x rest ih =>
    simp only [List.map_cons, List.flatten_cons, List.length_append, toLE_length, ih,
      List.length_cons]
    ring

/-- The `Vec<QueuedAttestation>` decoder inverts the encoder. -/
theorem decodeVariableList_encode (qs : List QueuedAttestation)
    (hdec : ∀ q ∈ qs, decodeQueuedAttestation (encodeQueuedAttestation q) = some q)
    (hbound : (encodeVariableList (qs.map encodeQueuedAttestation)).length < 2 ^ 32) :
    decodeVariableList (encodeVariableList (qs.map encodeQueuedAttestation)) = some qs := by
  cases qs with
  | nil => rfl
  | cons q qs' =>
    set items := (q :: qs').map encodeQueuedAttestation with hitems
    set H := ((varOffsets (4 * items.length) items).map (toLE 4)).flatten with hH
    have henc : encodeVariableList items = H ++ items.flatten := rfl
    have hHlen : H.length = 4 * items.length := by
      rw [hH, flatten_toLE4_length, varOffsets_length]
    have hilen : items.length = qs'.length + 1 := by
      rw [hitems]
      simp
    have hblen : (encodeVariableList items).length = H.length + items.flatten.length := by
      rw [henc, List.length_append]
    have hoff1 : varOffsets (4 * items.length) items =
        4 * items.length :: varOffsets (4 * items.length +
          (encodeQueuedAttestation q).length) (qs'.map encodeQueuedAttestation) := by
      rw [hitems]
      simp [varOffsets]
    have htake4 : (encodeVariableList items).take 4 = toLE 4 (4 * items.length) := by
      rw [henc, hH, hoff1]
      simp only [List.map_cons, List.flatten_cons, List.append_assoc]
      exact List.take_left' (toLE_length 4 _)
    have hofflt : ∀ o ∈ varOffsets (4 * items.length) items, o < 2 ^ 32 := by
      intro o ho
      have := (varOffsets_bounds items (4 * items.length) o ho).2
      have h4 : 4 * items.length + items.flatten.length < 2 ^ 32 := by
        rw [hblen, hHlen] at hbound
        omega
      omega
    have h4nlt : 4 * items.length < 2 ^ 32 := by
      rw [hblen, hHlen] at hbound
      omega
    unfold decodeVariableList
    rw [if_neg (by rw [hblen, hHlen, hilen]; omega : ¬ (encodeVariableList items).length = 0)]
    rw [if_neg (by rw [hblen, hHlen, hilen]; omega : ¬ (encodeVariableList items).length < 4)]
    rw [htake4, fromLE_toLE 4 (4 * items.length) h4nlt]
    rw [if_pos ?cond]
    case cond =>
      refine ⟨Nat.mul_mod_right 4 items.length, by rw [hilen]; omega, ?_⟩
      rw [hblen, hHlen]
      omega
    have hn : 4 * items.length / 4 = items.length := by
      rw [Nat.mul_div_cancel_left items.length (by norm_num : 0 < 4)]
    rw [hn]
    have hread : readOffsets (encodeVariableList items) 0 items.length =
        varOffsets (4 * items.length) items := by
      have := readOffsets_spec (varOffsets (4 * items.length) items) [] items.flatten hofflt
      rw [varOffsets_length] at this
      simpa [henc, hH] using this
    show decodeSlices (encodeVariableList items)
      (sliceBounds (encodeVariableList items).length
        (readOffsets (encodeVariableList items) 0 items.length)) = some (q :: qs')
    rw [hread]
    have hslice := decodeSlices_spec (q :: qs') H hdec
    rw [← hitems] at hslice
    rw [henc]
    rw [← hHlen]
    exact hslice

/-- Decoding a `PersistedForkChoice` snapshot inverts the encoder on
machine-representable snapshots. -/
theorem decodePersisted_encode (p : PersistedForkChoice) (h : wfPersisted p) :
    decodePersisted (encodePersisted p) = some p := by
  obtain ⟨hroot, _hbytes, hq, hlen⟩ := h
  set V := encodeVariableList (p.queuedAttestations.map encodeQueuedAttestation) with hV
  have henc : encodePersisted p = toLE 4 40 ++ (toLE 4 (40 + p.protoArrayBytes.length)
      ++ (toLE 32 p.genesisBlockRoot ++ (p.protoArrayBytes ++ V))) := by
    rw [encodePersisted]
    simp [List.append_assoc, hV]
  have hblen : (encodePersisted p).length = 40 + p.protoArrayBytes.length + V.length := by
    rw [henc]
    simp [toLE_length]
    omega
  have htake4 : (encodePersisted p).take 4 = toLE 4 40 := by
    rw [henc]
    exact List.take_left' (toLE_length 4 40)
  have hdrop4 : (encodePersisted p).drop 4 = toLE 4 (40 + p.protoArrayBytes.length)
      ++ (toLE 32 p.genesisBlockRoot ++ (p.protoArrayBytes ++ V)) := by
    rw [henc]
    exact List.drop_left' (toLE_length 4 40)
  have htake4' : ((encodePersisted p).drop 4).take 4 =
      toLE 4 (40 + p.protoArrayBytes.length) := by
    rw [hdrop4]
    exact List.take_left' (toLE_length 4 _)
  have hdrop8 : (encodePersisted p).drop 8 =
      toLE 32 p.genesisBlockRoot ++ (p.protoArrayBytes ++ V) := by
    have : (encodePersisted p).drop 8 = ((encodePersisted p).drop 4).drop 4 := by
      rw [List.drop_drop]
    rw [this, hdrop4]
    exact List.drop_left' (toLE_length 4 _)
  have htake32 : ((encodePersisted p).drop 8).take 32 = toLE 32 p.genesisBlockRoot := by
    rw [hdrop8]
    exact List.take_left' (toLE_length 32 _)
  have hdrop40 : (encodePersisted p).drop 40 = p.protoArrayBytes ++ V := by
    have : (encodePersisted p).drop 40 = ((encodePersisted p).drop 8).drop 32 := by
      rw [List.drop_drop]
    rw [this, hdrop8]
    exact List.drop_left' (toLE_length 32 _)
  have hofflt : 40 + p.protoArrayBytes.length < 2 ^ 32 := by
    rw [hblen] at hlen
    omega
  unfold decodePersisted
  rw [if_neg (by rw [hblen]; omega : ¬ (encodePersisted p).length < 40)]
  rw [htake4, htake4', htake32]
  rw [fromLE_toLE 4 40 (by norm_num), fromLE_toLE 4 _ (by exact_mod_cast hofflt),
    fromLE_toLE 32 _ (by exact_mod_cast hroot)]
  rw [if_pos ⟨rfl, by omega, by rw [hblen]; omega⟩]
  have hbytes40 : ((encodePersisted p).drop 40).take
      (40 + p.protoArrayBytes.length - 40) = p.protoArrayBytes := by
    rw [hdrop40]
    have h40 : 40 + p.protoArrayBytes.length - 40 = p.protoArrayBytes.length := by omega
    rw [h40, List.take_left]
  have hdropV : (encodePersisted p).drop (40 + p.protoArrayBytes.length) = V := by
    have : (encodePersisted p).drop (40 + p.protoArrayBytes.length) =
        ((encodePersisted p).drop 40).drop p.protoArrayBytes.length := by
      rw [List.drop_drop]
    rw [this, hdrop40, List.drop_left]
  have hdecV : decodeVariableList V = some p.queuedAttestations := by
    rw [hV]
    refine decodeVariableList_encode p.queuedAttestations ?_ ?_
    · intro q hqmem
      exact decodeQueuedAttestation_encode q (hq q hqmem)
    · rw [← hV]
      rw [hblen] at hlen
      omega
  rw [hbytes40, hdropV, hdecV]

/-- C8: serializing the fork-choice snapshot (`PersistedForkChoice`:
proto-array bytes, queued attestations, genesis block root), deserializing
it, and serializing the result again is byte-for-byte identical — on every
machine-representable snapshot the decoder recovers the snapshot exactly,
so the re-serialization is the same byte list. -/
theorem claim_C8_snapshot_roundtrip (p : PersistedForkChoice) (h : wfPersisted p) :
    decodePersisted (encodePersisted p) = some p ∧
    ∀ p', decodePersisted (encodePersisted p) = some p' →
      encodePersisted p' = encodePersisted p := by
  have hrt := decodePersisted_encode p h
  refine ⟨hrt, ?_⟩
  intro p' hp'
  rw [hrt] at hp'
  cases hp'
  rfl

set_option maxRecDepth 4096 in
/-- Witness: the round trip holds on the concrete snapshot `exPersisted`. -/
theorem claim_C8_snapshot_roundtrip_witness :
    wfPersisted exPersisted ∧
    decodePersisted (encodePersisted exPersisted) = some exPersisted :=
  ⟨by decide, (claim_C8_snapshot_roundtrip exPersisted (by decide)).1⟩
